import Mathlib

/-!
# Chat typing indicator of hanabi-live (server/src/command_chat_typing.go)

A shallow embedding of `commandChatTyping`, `chatTyping` and
`chatTypingCheckStopped`, followed by the properties of the debounce protocol.

Modelling conventions:

* an instant (`time.Time`) and a duration (`time.Duration`) are integers counting
  nanoseconds; `Time.Sub` saturates at the bounds of a signed 64 bit duration as
  the Go library does;
* a `*Table` is a reference (`TableRef`) into a heap of table values, so that the
  pointer comparison `t != t2` is a comparison of references;
* a Go panic (slice index out of range) is the result `none`;
* everything an operation does to the outside world is returned as a list of
  `Effect` values, in program order;
* the table lock makes each operation atomic, so an operation is one function
  from the server state before it to the server state after it.
-/

namespace HanabiLive

/-! ## Time -/

/-- One second as a `time.Duration`, which counts nanoseconds. -/
def Second : Int := 1000000000

/-- The constant `TypingDelay = 2 * time.Second`. -/
def TypingDelay : Int := 2 * Second

/-- Smallest `time.Duration` (a signed 64 bit integer). -/
def minDuration : Int := -(2 ^ 63)

/-- Largest `time.Duration`. -/
def maxDuration : Int := 2 ^ 63 - 1

/-- Go `Time.Sub`: the difference of two instants, saturated to the range of a
duration. -/
def timeSub (t u : Int) : Int :=
  let d := t - u
  if d < minDuration then minDuration
  else if maxDuration < d then maxDuration
  else d

/-- Go `time.Since(t)`, evaluated when the clock reads `now`. -/
def timeSince (now t : Int) : Int := timeSub now t

/-! ## Data model -/

/-- Modelled from the spec: the declarations of `Player` and `Spectator` are not
part of this file of the repository. Both carry the four fields used here
(`UserID`, `Name`, `Typing`, `LastTyped`); one record type stands for both. -/
structure Participant where
  UserID : Int
  Name : String
  Typing : Bool
  LastTyped : Int
deriving DecidableEq

/-- Modelled from the spec: the part of `Table` that the typing code reads and
writes. `Players` and `Spectators` are slices of pointers in Go; distinct
positions hold distinct records, so a list of values with in place replacement
represents them. -/
structure Table where
  ID : Nat
  Replay : Bool
  Players : List Participant
  Spectators : List Participant
deriving DecidableEq

/-- A `*Table`. -/
abbrev TableRef := Nat

/-- The part of `Session` used here. -/
structure Session where
  UserID : Int
deriving DecidableEq

/-- The part of `CommandData` used here. -/
structure CommandData where
  TableID : Nat
  NoTableLock : Bool
  NoTablesLock : Bool
deriving DecidableEq

/-- What an operation does to the outside world. -/
inductive Effect where
  /-- The call `s.Warning(msg)`. -/
  | Warning (s : Session) (msg : String)
  /-- The call `t.NotifyChatTyping(name, typing)`. -/
  | NotifyChatTyping (t : TableRef) (name : String) (typing : Bool)
  /-- The statement `go chatTypingCheckStopped(ctx, t, userID)`. -/
  | Go (t : TableRef) (userID : Int)
deriving DecidableEq

/-- The table registry (`tables`) and the heap of table values. -/
structure Server where
  tables : Nat → Option TableRef
  heap : TableRef → Table

/-- Writing through a `*Table`. -/
def Server.store (srv : Server) (t : TableRef) (tbl : Table) : Server :=
  { srv with heap := Function.update srv.heap t tbl }

/-- Modelled from the spec: `getTableAndLock` is not part of this file of the
repository. The spec gives `ResolveAndLockTable(tableID, wantsLock) → (table, exists)`:
the table currently registered under the identifier, if any. Taking the locks is
represented by the atomicity of the operations. Whatever else the function does
when the lookup fails (such as telling the session so) is not represented. -/
def getTableAndLock (srv : Server) (tableID : Nat)
    (_acquireTableLock _acquireTablesLock : Bool) : Option TableRef :=
  srv.tables tableID

/-- The roster lookups of `Table`, which are not part of this file of the
repository; every result below holds for all of them. -/
structure Roster where
  GetPlayerIndexFromID : Table → Int → Int
  GetSpectatorIndexFromID : Table → Int → Int
  IsPlayerOrSpectating : Table → Int → Bool
  IsActivelySpectating : Table → Int → Bool

/-- Go slice indexing `xs[i]` with `i : int`; `none` is the index out of range
panic. -/
def index {α : Type} (xs : List α) (i : Int) : Option α :=
  if 0 ≤ i then xs[i.toNat]? else none

/-- Replacing the spectator record at position `i`. -/
def Table.setSpectator (tbl : Table) (i : Int) (sp : Participant) : Table :=
  { tbl with Spectators := tbl.Spectators.set i.toNat sp }

/-- Replacing the player record at position `i`. -/
def Table.setPlayer (tbl : Table) (i : Int) (p : Participant) : Table :=
  { tbl with Players := tbl.Players.set i.toNat p }

/-- The trailing `if name != "" { t.NotifyChatTyping(name, typing) }`. -/
def notifyIfNamed (t : TableRef) (name : String) (typing : Bool) : List Effect :=
  if name ≠ "" then [Effect.NotifyChatTyping t name typing] else []

/-! ## The operations -/

/-- The function `chatTyping` (lines 46 to 73), run when the clock reads `now`. -/
def chatTyping (now : Int) (srv : Server) (s : Session) (t : TableRef)
    (playerIndex spectatorIndex : Int) : Option (Server × List Effect) :=
  let tbl := srv.heap t
  -- the table after the field updates, and the local variable `name`
  let updated : Option (Server × String) :=
    if spectatorIndex ≠ -1 then
      match index tbl.Spectators spectatorIndex with
      | none => none
      | some sp =>
        let sp1 := { sp with LastTyped := now }
        if !sp1.Typing then
          some (srv.store t (tbl.setSpectator spectatorIndex { sp1 with Typing := true }),
            sp1.Name)
        else
          some (srv.store t (tbl.setSpectator spectatorIndex sp1), "")
    else if playerIndex ≠ -1 then
      match index tbl.Players playerIndex with
      | none => none
      | some p =>
        let p1 := { p with LastTyped := now }
        if !p1.Typing then
          some (srv.store t (tbl.setPlayer playerIndex { p1 with Typing := true }), p1.Name)
        else
          some (srv.store t (tbl.setPlayer playerIndex p1), "")
    else
      some (srv, "")
  match updated with
  | none => none
  | some (srv1, name) =>
    some (srv1, notifyIfNamed t name true ++ [Effect.Go t s.UserID])

/-- The function `commandChatTyping` (lines 20 to 44). -/
def commandChatTyping (R : Roster) (now : Int) (srv : Server) (s : Session)
    (d : CommandData) : Option (Server × List Effect) :=
  match getTableAndLock srv d.TableID (!d.NoTableLock) (!d.NoTablesLock) with
  | none => some (srv, [])
  | some t =>
    let tbl := srv.heap t
    let playerIndex := R.GetPlayerIndexFromID tbl s.UserID
    let spectatorIndex := R.GetSpectatorIndexFromID tbl s.UserID
    if !R.IsPlayerOrSpectating tbl s.UserID then
      some (srv, [Effect.Warning s ("You are not playing or spectating at table "
        ++ toString tbl.ID ++ ", so you cannot report that you are typing.")])
    else if !R.IsActivelySpectating tbl s.UserID && tbl.Replay then
      some (srv, [Effect.Warning s ("You are not spectating replay "
        ++ toString tbl.ID ++ ", so you cannot report that you are typing.")])
    else
      chatTyping now srv s t playerIndex spectatorIndex

/-- Lines 101 to 126 of `chatTypingCheckStopped`: locating the record, the two
tests and the notification. -/
def chatTypingCheckStoppedLocated (now : Int) (srv : Server) (t : TableRef)
    (playerIndex spectatorIndex : Int) : Option (Server × List Effect) :=
  let tbl := srv.heap t
  if spectatorIndex ≠ -1 then
    match index tbl.Spectators spectatorIndex with
    | none => none
    | some sp =>
      if !sp.Typing then
        some (srv, [])
      else if timeSince now sp.LastTyped ≥ TypingDelay then
        some (srv.store t (tbl.setSpectator spectatorIndex { sp with Typing := false }),
          notifyIfNamed t sp.Name false)
      else
        some (srv, notifyIfNamed t "" false)
  else if playerIndex ≠ -1 then
    match index tbl.Players playerIndex with
    | none => none
    | some p =>
      if !p.Typing then
        some (srv, [])
      else if timeSince now p.LastTyped ≥ TypingDelay then
        some (srv.store t (tbl.setPlayer playerIndex { p with Typing := false }),
          notifyIfNamed t p.Name false)
      else
        some (srv, notifyIfNamed t "" false)
  else
    some (srv, notifyIfNamed t "" false)

/-- The function `chatTypingCheckStopped` (lines 76 to 127) from the moment
`time.Sleep(TypingDelay)` has returned; `now` is the reading of the clock at
`time.Since`. The sleep itself is the guard `Task.ready` of the scheduler below. -/
def chatTypingCheckStopped (R : Roster) (now : Int) (srv : Server) (t : TableRef)
    (userID : Int) : Option (Server × List Effect) :=
  match getTableAndLock srv (srv.heap t).ID false true with
  | none => some (srv, [])
  | some t2 =>
    if t ≠ t2 then
      some (srv, [])
    else
      let tbl := srv.heap t
      let playerIndex := R.GetPlayerIndexFromID tbl userID
      let spectatorIndex := R.GetSpectatorIndexFromID tbl userID
      if !R.IsPlayerOrSpectating tbl userID then
        some (srv, [])
      else if !R.IsActivelySpectating tbl userID && tbl.Replay then
        some (srv, [])
      else
        chatTypingCheckStoppedLocated now srv t playerIndex spectatorIndex

/-! ## Observations used to state the properties -/

/-- The record that both operations work on: the spectator record when the
spectator index is not -1, otherwise the player record when the player index is
not -1. -/
def located (tbl : Table) (playerIndex spectatorIndex : Int) : Option Participant :=
  if spectatorIndex ≠ -1 then index tbl.Spectators spectatorIndex
  else if playerIndex ≠ -1 then index tbl.Players playerIndex
  else none

/-- The typing notifications among some effects, as (name, isTyping) pairs. -/
def notifications : List Effect → List (String × Bool)
  | [] => []
  | Effect.NotifyChatTyping _ name typing :: es => (name, typing) :: notifications es
  | _ :: es => notifications es

/-- The reconciliation tasks started among some effects, as (table, user) pairs. -/
def scheduled : List Effect → List (TableRef × Int)
  | [] => []
  | Effect.Go t userID :: es => (t, userID) :: scheduled es
  | _ :: es => scheduled es

/-- The eligibility test applied before a record is looked at: the user is a
player or a spectator, and on a replay the user is actively spectating. -/
def eligible (R : Roster) (tbl : Table) (userID : Int) : Bool :=
  R.IsPlayerOrSpectating tbl userID && (R.IsActivelySpectating tbl userID || !tbl.Replay)

/-- The record of user `userID` on a table, through the roster lookups. -/
def locatedFor (R : Roster) (tbl : Table) (userID : Int) : Option Participant :=
  located tbl (R.GetPlayerIndexFromID tbl userID) (R.GetSpectatorIndexFromID tbl userID)

/-- What identifies a record on the roster: the fields the typing code never
writes. -/
def Participant.ident (p : Participant) : Int × String := (p.UserID, p.Name)

/-- Two table values with the same identifier, replay flag and roster; they may
differ in the `Typing` and `LastTyped` fields only. -/
def Table.sameRoster (a b : Table) : Prop :=
  a.ID = b.ID ∧ a.Replay = b.Replay ∧
  a.Players.map Participant.ident = b.Players.map Participant.ident ∧
  a.Spectators.map Participant.ident = b.Spectators.map Participant.ident

/-- The roster lookups do not read `Typing` or `LastTyped`. -/
structure Roster.Frame (R : Roster) : Prop where
  playerIndex : ∀ a b u, a.sameRoster b →
    R.GetPlayerIndexFromID a u = R.GetPlayerIndexFromID b u
  spectatorIndex : ∀ a b u, a.sameRoster b →
    R.GetSpectatorIndexFromID a u = R.GetSpectatorIndexFromID b u
  playerOrSpectating : ∀ a b u, a.sameRoster b →
    R.IsPlayerOrSpectating a u = R.IsPlayerOrSpectating b u
  activelySpectating : ∀ a b u, a.sameRoster b →
    R.IsActivelySpectating a u = R.IsActivelySpectating b u

/-! ## Scheduler: keystrokes and delayed reconciliations in one execution -/

/-- A goroutine started by `go chatTypingCheckStopped(ctx, t, userID)` that has
not run its body yet. `spawned` is the clock reading of the `chatTyping` call
that started it. -/
structure Task where
  table : TableRef
  userID : Int
  spawned : Int
deriving DecidableEq

/-- Line 77, `time.Sleep(TypingDelay)`: the body of the goroutine cannot run
before `TypingDelay` has passed since it was started. -/
def Task.ready (k : Task) (now : Int) : Bool :=
  decide (k.spawned + TypingDelay ≤ now)

/-- The server together with the outstanding goroutines, the effects emitted so
far (each with the clock reading of the operation that emitted it) and the
clock reading of the latest operation. -/
structure System where
  srv : Server
  tasks : List Task
  log : List (Int × Effect)
  clock : Int

/-- One atomic operation of an execution. -/
inductive Action where
  /-- A `chatTyping` command arrives and is handled when the clock reads `now` -/
  | keystroke (now : Int) (s : Session) (d : CommandData)
  /-- The outstanding goroutine at position `i` runs its body at time `now` -/
  | wake (i : Nat) (now : Int)
deriving DecidableEq

/-- Why an action did not yield a next state. -/
inductive Fault where
  /-- The action cannot happen here: the clock would run backwards, there is no
  such goroutine, or it is still asleep -/
  | notEnabled
  /-- The operation panicked. -/
  | panic
deriving DecidableEq

/-- The goroutines started by some effects emitted at time `now`. -/
def spawn (now : Int) : List Effect → List Task
  | [] => []
  | Effect.Go t userID :: es => ⟨t, userID, now⟩ :: spawn now es
  | _ :: es => spawn now es

/-- Time stamping the effects of one operation. -/
def stamp (now : Int) (es : List Effect) : List (Int × Effect) :=
  es.map (fun e => (now, e))

/-- One step of an execution. -/
def System.step (R : Roster) (sys : System) : Action → Except Fault System
  | Action.keystroke now s d =>
    if now < sys.clock then Except.error Fault.notEnabled
    else
      match commandChatTyping R now sys.srv s d with
      | none => Except.error Fault.panic
      | some (srv1, es) =>
        Except.ok
          { srv := srv1, tasks := sys.tasks ++ spawn now es,
            log := sys.log ++ stamp now es, clock := now }
  | Action.wake i now =>
    if now < sys.clock then Except.error Fault.notEnabled
    else
      match sys.tasks[i]? with
      | none => Except.error Fault.notEnabled
      | some k =>
        if !k.ready now then Except.error Fault.notEnabled
        else
          match chatTypingCheckStopped R now sys.srv k.table k.userID with
          | none => Except.error Fault.panic
          | some (srv1, es) =>
            Except.ok
              { srv := srv1, tasks := sys.tasks.eraseIdx i,
                log := sys.log ++ stamp now es, clock := now }

/-- An execution: the actions are taken one after the other. -/
def System.run (R : Roster) : System → List Action → Except Fault System
  | sys, [] => Except.ok sys
  | sys, a :: rest =>
    match sys.step R a with
    | Except.error e => Except.error e
    | Except.ok sys1 => System.run R sys1 rest

/-- The clock readings at which effect `e` was emitted, in order. -/
def timesOf (e : Effect) (log : List (Int × Effect)) : List Int :=
  (log.filter (fun x => decide (x.2 = e))).map (fun x => x.1)

/-- The action is the run of a goroutine, or a keystroke of session `s` sent
with command data `d`. -/
def Action.fromSession (s : Session) (d : CommandData) : Action → Prop
  | Action.keystroke _ s1 d1 => s1 = s ∧ d1 = d
  | Action.wake _ _ => True

/-- The action is the run of a goroutine. -/
def Action.isWake : Action → Prop
  | Action.keystroke _ _ _ => False
  | Action.wake _ _ => True

/-- The clock readings of the keystrokes of an execution, in order. -/
def keyTimes : List Action → List Int
  | [] => []
  | Action.keystroke now _ _ :: rest => now :: keyTimes rest
  | Action.wake _ _ :: rest => keyTimes rest

/-- Replacing the located record: the spectator record when the spectator index
is not -1, otherwise the player record when the player index is not -1. -/
def Table.setLocated (tbl : Table) (playerIndex spectatorIndex : Int) (p : Participant) :
    Table :=
  if spectatorIndex ≠ -1 then tbl.setSpectator spectatorIndex p
  else if playerIndex ≠ -1 then tbl.setPlayer playerIndex p
  else tbl

/-! ## A concrete roster lookup and concrete servers -/

/-- Position of the first record of user `u`, or -1. -/
def indexOfUser : List Participant → Int → Int
  | [], _ => -1
  | p :: rest, u =>
    if p.UserID = u then 0
    else if indexOfUser rest u = -1 then -1 else indexOfUser rest u + 1

/-- Modelled from the spec: one instance of the roster lookups, which are not
part of this file of the repository. The spec gives
`ClassifyParticipant(table, userID) → {none, player(index), spectator(index)}` and
`IsActivelySpectating(table, userID) → bool`; here a user is found by scanning
for the user identifier, and every spectator on the list is actively
spectating. It instantiates the general results on concrete tables. -/
def scanRoster : Roster where
  GetPlayerIndexFromID tbl u := indexOfUser tbl.Players u
  GetSpectatorIndexFromID tbl u := indexOfUser tbl.Spectators u
  IsPlayerOrSpectating tbl u :=
    decide (indexOfUser tbl.Players u ≠ -1) || decide (indexOfUser tbl.Spectators u ≠ -1)
  IsActivelySpectating tbl u := decide (indexOfUser tbl.Spectators u ≠ -1)

/-- A table in play with two players and one spectator, nobody typing. -/
def demoTable : Table :=
  { ID := 15103, Replay := false,
    Players := [⟨1, "Alice", false, 0⟩, ⟨2, "Bob", false, 0⟩],
    Spectators := [⟨3, "Carol", false, 0⟩] }

/-- A server with `demoTable` registered under its identifier at reference 0. -/
def demoServer : Server :=
  { tables := fun tableID => if tableID = 15103 then some 0 else none,
    heap := fun _ => demoTable }

/-- A table on which player 1 has been typing since the clock read 1 second. -/
def busyTable : Table :=
  { ID := 15103, Replay := false,
    Players := [⟨1, "Alice", true, 1000000000⟩, ⟨2, "Bob", false, 0⟩],
    Spectators := [⟨3, "Carol", false, 0⟩] }

/-- A server with `busyTable` registered under its identifier at reference 0. -/
def busyServer : Server :=
  { tables := fun tableID => if tableID = 15103 then some 0 else none,
    heap := fun _ => busyTable }

/-- A table whose only player has the empty string as display name. -/
def anonTable : Table :=
  { ID := 15103, Replay := false,
    Players := [⟨1, "", false, 0⟩],
    Spectators := [] }

/-- A server with `anonTable` registered at reference 0. -/
def anonServer : Server :=
  { tables := fun tableID => if tableID = 15103 then some 0 else none,
    heap := fun _ => anonTable }

/-- A replay in which user 1 is a player of the original game and user 3 a
spectator. -/
def replayTable : Table :=
  { ID := 15103, Replay := true,
    Players := [⟨1, "Alice", false, 0⟩],
    Spectators := [⟨3, "Carol", false, 0⟩] }

/-- A server with `replayTable` registered at reference 0. -/
def replayServer : Server :=
  { tables := fun tableID => if tableID = 15103 then some 0 else none,
    heap := fun _ => replayTable }

/-- A server on which the table at reference 0 was torn down and a new table,
at reference 1, took over its identifier. Both tables are `busyTable`: the same
user is typing on the successor and has been for a long time. -/
def reusedServer : Server :=
  { tables := fun tableID => if tableID = 15103 then some 1 else none,
    heap := fun _ => busyTable }

/-! ## The setting of the properties about one participant -/

/-- The table at reference `t` is the one that the command data `d` resolves
to, and the user of session `s` passes the eligibility test on it. -/
structure Scene (R : Roster) (s : Session) (d : CommandData) (t : TableRef)
    (srv : Server) : Prop where
  registered : getTableAndLock srv d.TableID (!d.NoTableLock) (!d.NoTablesLock) = some t
  elig : eligible R (srv.heap t) s.UserID = true

/-- Every outstanding goroutine was started for table `t` and user `u`. -/
def tasksFor (t : TableRef) (u : Int) (tasks : List Task) : Prop :=
  ∀ k ∈ tasks, k.table = t ∧ k.userID = u

/-- Consecutive clock readings are less than `TypingDelay` apart. -/
def gapsBelowDelay (times : List Int) : Prop :=
  List.Chain' (fun a b => b - a < TypingDelay) times

/-- The session of Alice, user 1. -/
def aliceSession : Session := ⟨1⟩

/-- The command data of a keystroke on table 15103. -/
def demoData : CommandData := ⟨15103, false, false⟩

/-- The start of an execution on `demoServer`: no goroutine outstanding, nothing
emitted, the clock at 0. -/
def demoSystem : System :=
  { srv := demoServer, tasks := [], log := [], clock := 0 }

/-- The scenario of the specification: keystrokes at 0, 0.5 and 1.0 seconds;
the three reconciliations run at 2.0, 2.5 and 3.0 seconds. -/
def demoActions : List Action :=
  [Action.keystroke 0 aliceSession demoData,
   Action.keystroke 500000000 aliceSession demoData,
   Action.keystroke 1000000000 aliceSession demoData,
   Action.wake 0 2000000000,
   Action.wake 0 2500000000,
   Action.wake 0 3000000000]

/-- The session of Bob, user 2. -/
def bobSession : Session := ⟨2⟩

/-- Alice types at 0 and 1.5 seconds, Bob types at 1.6 seconds, and the
reconciliation started by the first keystroke of Alice runs at 2.0 seconds. -/
def refreshActions : List Action :=
  [Action.keystroke 0 aliceSession demoData,
   Action.keystroke 1500000000 aliceSession demoData,
   Action.keystroke 1600000000 bobSession demoData,
   Action.wake 0 2000000000]

/-- A table value after an operation that ran when the clock read `now`: it is
the table before, or the table before with one located record replaced by a
record of the same user and name whose `LastTyped` is `now` if its flag is set. -/
def Table.touched (now : Int) (tbl tbl1 : Table) : Prop :=
  tbl1 = tbl ∨ ∃ pi si p q, located tbl pi si = some p ∧ q.ident = p.ident ∧
    (q.Typing = true → q.LastTyped = now) ∧ tbl1 = tbl.setLocated pi si q

/-- The keystroke handled at time `k` is accounted for in a state: the clock has
reached `k`, and if user `u` is eligible on table `t` and the located record has
the flag set, then its `LastTyped` is at least `k`. -/
def keyBound (R : Roster) (t : TableRef) (u : Int) (k : Int) (sys : System) : Prop :=
  k ≤ sys.clock ∧
  (eligible R (sys.srv.heap t) u = true → ∀ p, locatedFor R (sys.srv.heap t) u = some p →
    p.Typing = true → k ≤ p.LastTyped)

/-- The log and the outstanding goroutines at the end of an execution, when it
runs to its end. -/
def System.runView (R : Roster) (sys : System) (acts : List Action) :
    Option (List (Int × Effect) × List Task) :=
  match System.run R sys acts with
  | Except.ok sysF => some (sysF.log, sysF.tasks)
  | Except.error _ => none

/-- The state of an execution as seen from one participant: the setting holds,
the record of the user is located and equals `p`, and every outstanding
goroutine belongs to this user and table. -/
structure Focus (R : Roster) (s : Session) (d : CommandData) (t : TableRef)
    (p : Participant) (sys : System) : Prop where
  scene : Scene R s d t sys.srv
  loc : locatedFor R (sys.srv.heap t) s.UserID = some p
  tasks : tasksFor t s.UserID sys.tasks

/-! ## Observations for the frame, safety and invariant properties -/

/-- An index as the roster lookups are meant to return it: -1, or a position of
the collection. -/
def validIndex {α : Type} (xs : List α) (i : Int) : Prop :=
  i = -1 ∨ ∃ a, index xs i = some a

/-- Every index returned by the roster lookups is -1 or a position of its
collection. -/
structure Roster.InRange (R : Roster) : Prop where
  player : ∀ tbl u, validIndex tbl.Players (R.GetPlayerIndexFromID tbl u)
  spectator : ∀ tbl u, validIndex tbl.Spectators (R.GetSpectatorIndexFromID tbl u)

/-- The place of a record on a table: a position among the players or among the
spectators. -/
inductive Slot where
  | player (i : Int)
  | spectator (i : Int)
deriving DecidableEq

/-- The place that the two operations work on, given the two indices. -/
def slotOf (playerIndex spectatorIndex : Int) : Option Slot :=
  if spectatorIndex ≠ -1 then some (Slot.spectator spectatorIndex)
  else if playerIndex ≠ -1 then some (Slot.player playerIndex)
  else none

/-- The record at a place of a table, if the place exists. -/
def Table.record (tbl : Table) : Slot → Option Participant
  | Slot.player i => index tbl.Players i
  | Slot.spectator i => index tbl.Spectators i

/-- The table of a server with its list of players replaced. -/
def Server.withPlayers (srv : Server) (t : TableRef) (players : List Participant) : Server :=
  srv.store t { srv.heap t with Players := players }

/-- A replay on which user 1 has a player record named Alice and a spectator
record named Alicia; the player record has the flag set since 1 second, the
spectator record has it clear. -/
def sharedReplayTable : Table :=
  { ID := 15103, Replay := true,
    Players := [⟨1, "Alice", true, 1000000000⟩],
    Spectators := [⟨1, "Alicia", false, 0⟩] }

/-- A server with `sharedReplayTable` registered at reference 0. -/
def sharedReplayServer : Server :=
  { tables := fun tableID => if tableID = 15103 then some 0 else none,
    heap := fun _ => sharedReplayTable }

/-- The clock reading at which an action happens. -/
def Action.time : Action → Int
  | Action.keystroke now _ _ => now
  | Action.wake _ now => now

/-- The table and the place that a keystroke reaches in `chatTyping`: the table
its command data resolves to and the place given by the two indices, when the
user passes the eligibility test. Runs of goroutines reach none. -/
def keyedSlot (R : Roster) (srv : Server) : Action → Option (TableRef × Slot)
  | Action.keystroke _ s d =>
    match getTableAndLock srv d.TableID (!d.NoTableLock) (!d.NoTablesLock) with
    | none => none
    | some t =>
      if eligible R (srv.heap t) s.UserID then
        (slotOf (R.GetPlayerIndexFromID (srv.heap t) s.UserID)
          (R.GetSpectatorIndexFromID (srv.heap t) s.UserID)).map (fun sl => (t, sl))
      else none
  | Action.wake _ _ => none

/-- The clock reading of the most recent keystroke of an execution for which
`chatTyping` located the record at place `sl` of table `t`; `acc` is the answer
for what happened before the execution. -/
def lastLocated (R : Roster) (t : TableRef) (sl : Slot) :
    System → List Action → Option Int → Option Int
  | _, [], acc => acc
  | sys, a :: rest, acc =>
    match sys.step R a with
    | Except.error _ => acc
    | Except.ok sys1 =>
      lastLocated R t sl sys1 rest
        (if keyedSlot R sys.srv a = some (t, sl) then some a.time else acc)

/-- The record at a place of a table at the end of an execution, when it runs
to its end. -/
def System.runRecord (R : Roster) (sys : System) (acts : List Action) (t : TableRef)
    (sl : Slot) : Option Participant :=
  match System.run R sys acts with
  | Except.ok sysF => (sysF.srv.heap t).record sl
  | Except.error _ => none

/-- The scenario of the specification followed by a new keystroke of Alice at 4
seconds, after her flag was cleared at 3 seconds. -/
def episodeActions : List Action :=
  demoActions ++ [Action.keystroke 4000000000 aliceSession demoData]

/-- Alice types at 0 and 1.0 seconds; the reconciliation started by the first
keystroke is held up and runs at 3.5 seconds. -/
def lateActions : List Action :=
  [Action.keystroke 0 aliceSession demoData,
   Action.keystroke 1000000000 aliceSession demoData,
   Action.wake 0 3500000000]

/-- The located record of a user at the end of an execution, when it runs to
its end. -/
def System.runLocated (R : Roster) (sys : System) (acts : List Action) (t : TableRef)
    (u : Int) : Option Participant :=
  match System.run R sys acts with
  | Except.ok sysF => locatedFor R (sysF.srv.heap t) u
  | Except.error _ => none

/-! ## Basic facts -/

theorem typingDelay_pos : 0 < TypingDelay := by decide

theorem timeSince_ge_iff (now last : Int) :
    timeSince now last ≥ TypingDelay ↔ TypingDelay ≤ now - last := by
  unfold timeSince timeSub TypingDelay Second minDuration maxDuration
  simp only []
  split_ifs <;> constructor <;> intro h <;> omega

theorem index_eq_some {α : Type} {xs : List α} {i : Int} {a : α}
    (h : index xs i = some a) : 0 ≤ i ∧ xs[i.toNat]? = some a := by
  unfold index at h
  split_ifs at h with h0
  exact ⟨h0, h⟩

theorem index_set_self {α : Type} {xs : List α} {i : Int} {a : α} (b : α)
    (h : index xs i = some a) : index (xs.set i.toNat b) i = some b := by
  obtain ⟨h0, h1⟩ := index_eq_some h
  have hlt : i.toNat < xs.length := (List.getElem?_eq_some.mp h1).1
  simp [index, h0, List.getElem?_set, hlt]

theorem map_ident_set {xs : List Participant} {n : Nat} {a : Participant} (b : Participant)
    (h : xs[n]? = some a) (hb : b.ident = a.ident) :
    (xs.set n b).map Participant.ident = xs.map Participant.ident := by
  apply List.ext_getElem?
  intro m
  by_cases hm : n = m
  · subst hm
    obtain ⟨hlt, hget⟩ := List.getElem?_eq_some.mp h
    simp [List.getElem?_set, hlt, hb, hget]
  · simp [List.getElem?_set, hm]

theorem notifyIfNamed_empty (t : TableRef) (b : Bool) : notifyIfNamed t "" b = [] := by
  simp [notifyIfNamed]

theorem notifyIfNamed_of_ne {name : String} (h : name ≠ "") (t : TableRef) (b : Bool) :
    notifyIfNamed t name b = [Effect.NotifyChatTyping t name b] := by
  simp [notifyIfNamed, h]

theorem located_cases {tbl : Table} {pi si : Int} {p : Participant}
    (h : located tbl pi si = some p) :
    (si ≠ -1 ∧ index tbl.Spectators si = some p) ∨
    (si = -1 ∧ pi ≠ -1 ∧ index tbl.Players pi = some p) := by
  unfold located at h
  by_cases hs : si ≠ -1
  · rw [if_pos hs] at h
    exact Or.inl ⟨hs, h⟩
  · rw [if_neg hs] at h
    by_cases hp : pi ≠ -1
    · rw [if_pos hp] at h
      exact Or.inr ⟨not_not.mp hs, hp, h⟩
    · rw [if_neg hp] at h
      cases h

theorem setLocated_spectator {si : Int} (hs : si ≠ -1) (tbl : Table) (pi : Int)
    (q : Participant) : tbl.setLocated pi si q = tbl.setSpectator si q := by
  unfold Table.setLocated
  rw [if_pos hs]

theorem setLocated_player {pi : Int} (hp : pi ≠ -1) (tbl : Table) (q : Participant) :
    tbl.setLocated pi (-1) q = tbl.setPlayer pi q := by
  unfold Table.setLocated
  rw [if_neg (by simp), if_pos hp]

theorem located_setLocated {tbl : Table} {pi si : Int} {p : Participant} (q : Participant)
    (h : located tbl pi si = some p) : located (tbl.setLocated pi si q) pi si = some q := by
  rcases located_cases h with ⟨hs, h1⟩ | ⟨hs, hp, h1⟩
  · rw [setLocated_spectator hs]
    unfold located
    rw [if_pos hs]
    exact index_set_self q h1
  · subst hs
    rw [setLocated_player hp]
    unfold located
    rw [if_neg (by simp), if_pos hp]
    exact index_set_self q h1

theorem sameRoster_setLocated {tbl : Table} {pi si : Int} {p : Participant} (q : Participant)
    (h : located tbl pi si = some p) (hq : q.ident = p.ident) :
    (tbl.setLocated pi si q).sameRoster tbl := by
  rcases located_cases h with ⟨hs, h1⟩ | ⟨hs, hp, h1⟩
  · rw [setLocated_spectator hs]
    exact ⟨rfl, rfl, rfl, map_ident_set q (index_eq_some h1).2 hq⟩
  · subst hs
    rw [setLocated_player hp]
    exact ⟨rfl, rfl, map_ident_set q (index_eq_some h1).2 hq, rfl⟩

/-- What `chatTyping` does when a record is located: the record gets
`Typing = true` and `LastTyped = now`, a start notification goes out when the
flag was false, and one goroutine is started. -/
theorem chatTyping_of_located {now : Int} {srv : Server} {s : Session} {t : TableRef}
    {pi si : Int} {p : Participant} (h : located (srv.heap t) pi si = some p) :
    chatTyping now srv s t pi si =
      some (srv.store t ((srv.heap t).setLocated pi si { p with Typing := true, LastTyped := now }),
        notifyIfNamed t (if p.Typing then "" else p.Name) true ++ [Effect.Go t s.UserID]) := by
  obtain ⟨u, n, ty, l⟩ := p
  rcases located_cases h with ⟨hs, h1⟩ | ⟨hs, hp, h1⟩
  · rw [setLocated_spectator hs]
    unfold chatTyping
    cases ty <;> simp [hs, h1]
  · subst hs
    rw [setLocated_player hp]
    unfold chatTyping
    cases ty <;> simp [hp, h1]

/-- What `chatTyping` does when both indices are -1. -/
theorem chatTyping_of_not_located (now : Int) (srv : Server) (s : Session) (t : TableRef) :
    chatTyping now srv s t (-1) (-1) = some (srv, [Effect.Go t s.UserID]) := by
  simp [chatTyping, notifyIfNamed]

/-- What lines 101 to 126 do when a record is located. -/
theorem checkStoppedLocated_of_located {now : Int} {srv : Server} {t : TableRef}
    {pi si : Int} {p : Participant} (h : located (srv.heap t) pi si = some p) :
    chatTypingCheckStoppedLocated now srv t pi si =
      if p.Typing = true ∧ TypingDelay ≤ now - p.LastTyped then
        some (srv.store t ((srv.heap t).setLocated pi si { p with Typing := false }),
          notifyIfNamed t p.Name false)
      else some (srv, []) := by
  obtain ⟨u, n, ty, l⟩ := p
  rcases located_cases h with ⟨hs, h1⟩ | ⟨hs, hp, h1⟩
  · rw [setLocated_spectator hs]
    unfold chatTypingCheckStoppedLocated
    cases ty <;> simp [hs, h1, timeSince_ge_iff, notifyIfNamed_empty]
  · subst hs
    rw [setLocated_player hp]
    unfold chatTypingCheckStoppedLocated
    cases ty <;> simp [hp, h1, timeSince_ge_iff, notifyIfNamed_empty]

/-- What lines 101 to 126 do when both indices are -1. -/
theorem checkStoppedLocated_of_not_located (now : Int) (srv : Server) (t : TableRef) :
    chatTypingCheckStoppedLocated now srv t (-1) (-1) = some (srv, []) := by
  simp [chatTypingCheckStoppedLocated, notifyIfNamed]

/-! ## The guards of the two entry points -/

theorem commandChatTyping_of_eligible {R : Roster} {srv : Server} {s : Session}
    {d : CommandData} {t : TableRef} (now : Int)
    (hreg : getTableAndLock srv d.TableID (!d.NoTableLock) (!d.NoTablesLock) = some t)
    (helig : eligible R (srv.heap t) s.UserID = true) :
    commandChatTyping R now srv s d =
      chatTyping now srv s t (R.GetPlayerIndexFromID (srv.heap t) s.UserID)
        (R.GetSpectatorIndexFromID (srv.heap t) s.UserID) := by
  unfold eligible at helig
  unfold commandChatTyping
  rw [hreg]
  simp only [Bool.and_eq_true, Bool.or_eq_true, Bool.not_eq_true'] at helig
  obtain ⟨h1, h2⟩ := helig
  rcases h2 with h2 | h2 <;> simp [h1, h2]

theorem commandChatTyping_of_not_member {R : Roster} {srv : Server} {s : Session}
    {d : CommandData} {t : TableRef} (now : Int)
    (hreg : getTableAndLock srv d.TableID (!d.NoTableLock) (!d.NoTablesLock) = some t)
    (h1 : R.IsPlayerOrSpectating (srv.heap t) s.UserID = false) :
    commandChatTyping R now srv s d =
      some (srv, [Effect.Warning s ("You are not playing or spectating at table "
        ++ toString (srv.heap t).ID ++ ", so you cannot report that you are typing.")]) := by
  unfold commandChatTyping
  rw [hreg]
  simp [h1]

theorem commandChatTyping_of_passive {R : Roster} {srv : Server} {s : Session}
    {d : CommandData} {t : TableRef} (now : Int)
    (hreg : getTableAndLock srv d.TableID (!d.NoTableLock) (!d.NoTablesLock) = some t)
    (h1 : R.IsPlayerOrSpectating (srv.heap t) s.UserID = true)
    (h2 : R.IsActivelySpectating (srv.heap t) s.UserID = false)
    (h3 : (srv.heap t).Replay = true) :
    commandChatTyping R now srv s d =
      some (srv, [Effect.Warning s ("You are not spectating replay "
        ++ toString (srv.heap t).ID ++ ", so you cannot report that you are typing.")]) := by
  unfold commandChatTyping
  rw [hreg]
  simp [h1, h2, h3]

theorem commandChatTyping_of_ineligible {R : Roster} {srv : Server} {s : Session}
    {d : CommandData} {t : TableRef} (now : Int)
    (hreg : getTableAndLock srv d.TableID (!d.NoTableLock) (!d.NoTablesLock) = some t)
    (helig : eligible R (srv.heap t) s.UserID = false) :
    ∃ msg, commandChatTyping R now srv s d = some (srv, [Effect.Warning s msg]) := by
  unfold eligible at helig
  cases h1 : R.IsPlayerOrSpectating (srv.heap t) s.UserID
  · exact ⟨_, commandChatTyping_of_not_member now hreg h1⟩
  · cases h2 : R.IsActivelySpectating (srv.heap t) s.UserID <;>
      cases h3 : (srv.heap t).Replay <;> simp [h1, h2, h3] at helig
    exact ⟨_, commandChatTyping_of_passive now hreg h1 h2 h3⟩

theorem checkStopped_of_unregistered {R : Roster} {srv : Server} {t : TableRef} (now : Int)
    (u : Int) (h : getTableAndLock srv (srv.heap t).ID false true ≠ some t) :
    chatTypingCheckStopped R now srv t u = some (srv, []) := by
  unfold chatTypingCheckStopped
  cases h2 : getTableAndLock srv (srv.heap t).ID false true with
  | none => rfl
  | some t2 =>
    have hne : t ≠ t2 := by
      intro he
      exact h (by rw [h2, he])
    simp [hne]

theorem checkStopped_of_ineligible {R : Roster} {srv : Server} {t : TableRef} (now : Int)
    {u : Int} (helig : eligible R (srv.heap t) u = false) :
    chatTypingCheckStopped R now srv t u = some (srv, []) := by
  unfold eligible at helig
  unfold chatTypingCheckStopped
  cases h2 : getTableAndLock srv (srv.heap t).ID false true with
  | none => rfl
  | some t2 =>
    by_cases hne : t ≠ t2
    · simp [hne]
    · cases h1 : R.IsPlayerOrSpectating (srv.heap t) u
      · simp [h1]
      · cases h2 : R.IsActivelySpectating (srv.heap t) u <;>
          cases h3 : (srv.heap t).Replay <;> simp [h1, h2, h3] at helig
        simp [h1, h2, h3]

theorem checkStopped_of_eligible {R : Roster} {srv : Server} {t : TableRef} (now : Int)
    {u : Int} (hreg : getTableAndLock srv (srv.heap t).ID false true = some t)
    (helig : eligible R (srv.heap t) u = true) :
    chatTypingCheckStopped R now srv t u =
      chatTypingCheckStoppedLocated now srv t (R.GetPlayerIndexFromID (srv.heap t) u)
        (R.GetSpectatorIndexFromID (srv.heap t) u) := by
  unfold eligible at helig
  unfold chatTypingCheckStopped
  rw [hreg]
  simp only [Bool.and_eq_true, Bool.or_eq_true, Bool.not_eq_true'] at helig
  obtain ⟨h1, h2⟩ := helig
  rcases h2 with h2 | h2 <;> simp [h1, h2]

/-- The reconciliation either leaves everything as it is and emits nothing, or
it found the flag of the located record set with at least `TypingDelay` elapsed
and cleared it. -/
theorem checkStopped_cases {R : Roster} {srv : Server} {t : TableRef} (now : Int) {u : Int}
    {p : Participant} (hloc : locatedFor R (srv.heap t) u = some p) :
    chatTypingCheckStopped R now srv t u = some (srv, []) ∨
    (p.Typing = true ∧ TypingDelay ≤ now - p.LastTyped ∧
      chatTypingCheckStopped R now srv t u =
        some (srv.store t ((srv.heap t).setLocated (R.GetPlayerIndexFromID (srv.heap t) u)
            (R.GetSpectatorIndexFromID (srv.heap t) u) { p with Typing := false }),
          notifyIfNamed t p.Name false)) := by
  by_cases hreg : getTableAndLock srv (srv.heap t).ID false true = some t
  · cases helig : eligible R (srv.heap t) u
    · exact Or.inl (checkStopped_of_ineligible now helig)
    · rw [checkStopped_of_eligible now hreg helig, checkStoppedLocated_of_located hloc]
      by_cases hc : p.Typing = true ∧ TypingDelay ≤ now - p.LastTyped
      · rw [if_pos hc]
        exact Or.inr ⟨hc.1, hc.2, rfl⟩
      · rw [if_neg hc]
        exact Or.inl rfl
  · exact Or.inl (checkStopped_of_unregistered now u hreg)

theorem store_heap_self (srv : Server) (t : TableRef) (tbl : Table) :
    (srv.store t tbl).heap t = tbl := by
  simp [Server.store]

theorem store_tables (srv : Server) (t : TableRef) (tbl : Table) :
    (srv.store t tbl).tables = srv.tables := rfl

theorem notifications_notifyIfNamed (t : TableRef) (name : String) (b : Bool) :
    notifications (notifyIfNamed t name b) = if name ≠ "" then [(name, b)] else [] := by
  unfold notifyIfNamed
  split_ifs <;> rfl

theorem notifications_append (xs ys : List Effect) :
    notifications (xs ++ ys) = notifications xs ++ notifications ys := by
  induction xs with
  | nil => rfl
  | cons e rest ih => cases e <;> simp [notifications, ih]

/-! ## Single operations -/

/-- C1: when `chatTyping` runs at time `now` and a record is located (the
spectator record when the spectator index is not -1, otherwise the player
record when the player index is not -1), the call returns and the located
record is afterwards the record before the call with `Typing = true` and
`LastTyped = now`, whatever the two fields were before. -/
theorem chatTyping_marks_located (now : Int) (srv : Server) (s : Session) (t : TableRef)
    (pi si : Int) (p : Participant) (hloc : located (srv.heap t) pi si = some p) :
    ∃ srv1 es, chatTyping now srv s t pi si = some (srv1, es) ∧
      located (srv1.heap t) pi si = some { p with Typing := true, LastTyped := now } := by
  refine ⟨_, _, chatTyping_of_located hloc, ?_⟩
  rw [store_heap_self]
  exact located_setLocated _ hloc

/-- Instance of C1: Alice, a player of `busyTable` who was already typing with
`LastTyped` at 1 second, sends a keystroke at 5 seconds. -/
theorem chatTyping_marks_located_witness :
    located (busyServer.heap 0) 0 (-1) = some ⟨1, "Alice", true, 1000000000⟩ ∧
    ∃ srv1 es, chatTyping 5000000000 busyServer ⟨1⟩ 0 0 (-1) = some (srv1, es) ∧
      located (srv1.heap 0) 0 (-1) = some ⟨1, "Alice", true, 5000000000⟩ :=
  ⟨rfl, chatTyping_marks_located 5000000000 busyServer ⟨1⟩ 0 0 (-1)
    ⟨1, "Alice", true, 1000000000⟩ rfl⟩

/-- C2 fails as stated: the only player of `anonTable` is eligible and not
typing, and has the empty string as display name. The keystroke sets the flag
and `chatTyping` emits no notification for this transition. -/
theorem empty_name_start_not_broadcast :
    eligible scanRoster (anonServer.heap 0) 1 = true ∧
    located (anonServer.heap 0) 0 (-1) = some ⟨1, "", false, 0⟩ ∧
    (chatTyping 5 anonServer ⟨1⟩ 0 0 (-1)).map
        (fun r => (located (r.1.heap 0) 0 (-1), notifications r.2)) =
      some (some ⟨1, "", true, 5⟩, []) := by
  refine ⟨rfl, rfl, ?_⟩
  have h : located (anonServer.heap 0) 0 (-1) = some ⟨1, "", false, 0⟩ := rfl
  rw [chatTyping_of_located h]
  rfl

/-- C2, amended: for a located record, `chatTyping` emits exactly one
notification (name, true) when `Typing` was false and the name is not the empty
string, and no notification otherwise; `chatTypingCheckStopped` emits exactly
one notification (name, false) when it changed `Typing` from true to false and
the name is not the empty string, and no notification otherwise. -/
theorem transitions_broadcast_when_named (R : Roster) (now : Int) (srv : Server)
    (s : Session) (t : TableRef) (p : Participant)
    (hloc : locatedFor R (srv.heap t) s.UserID = some p) :
    (∃ srv1 es,
      chatTyping now srv s t (R.GetPlayerIndexFromID (srv.heap t) s.UserID)
        (R.GetSpectatorIndexFromID (srv.heap t) s.UserID) = some (srv1, es) ∧
      notifications es = if p.Typing = false ∧ p.Name ≠ "" then [(p.Name, true)] else []) ∧
    (∃ srv1 es q,
      chatTypingCheckStopped R now srv t s.UserID = some (srv1, es) ∧
      located (srv1.heap t) (R.GetPlayerIndexFromID (srv.heap t) s.UserID)
        (R.GetSpectatorIndexFromID (srv.heap t) s.UserID) = some q ∧
      notifications es =
        if p.Typing = true ∧ q.Typing = false ∧ p.Name ≠ "" then [(p.Name, false)] else []) := by
  unfold locatedFor at hloc
  constructor
  · refine ⟨_, _, chatTyping_of_located hloc, ?_⟩
    rw [notifications_append, notifications_notifyIfNamed]
    cases hT : p.Typing <;> by_cases hn : p.Name = "" <;> simp [hn, notifications]
  · rcases checkStopped_cases now (R := R) (u := s.UserID) hloc with h | ⟨hT, -, h⟩
    · refine ⟨srv, [], p, h, hloc, ?_⟩
      cases hT : p.Typing <;> simp [notifications]
    · refine ⟨_, _, { p with Typing := false }, h, ?_, ?_⟩
      · rw [store_heap_self]
        exact located_setLocated _ hloc
      · rw [notifications_notifyIfNamed]
        by_cases hn : p.Name = "" <;> simp [hn, hT]

/-- Instance of the amended C2: Alice, typing on `busyTable`. -/
theorem transitions_broadcast_when_named_witness :
    locatedFor scanRoster (busyServer.heap 0) 1 = some ⟨1, "Alice", true, 1000000000⟩ ∧
    ((∃ srv1 es, chatTyping 3000000000 busyServer ⟨1⟩ 0 0 (-1) = some (srv1, es) ∧
        notifications es = []) ∧
      (∃ srv1 es q, chatTypingCheckStopped scanRoster 3000000000 busyServer 0 1 = some (srv1, es) ∧
        located (srv1.heap 0) 0 (-1) = some q ∧
        notifications es = if q.Typing = false then [("Alice", false)] else [])) := by
  refine ⟨rfl, ?_⟩
  have h := transitions_broadcast_when_named scanRoster 3000000000 busyServer ⟨1⟩ 0
    ⟨1, "Alice", true, 1000000000⟩ rfl
  obtain ⟨⟨a, es, h1, h2⟩, ⟨b, es2, q, h3, h4, h5⟩⟩ := h
  refine ⟨⟨a, es, h1, ?_⟩, ⟨b, es2, q, h3, h4, ?_⟩⟩
  · simpa using h2
  · rw [h5]
    simp

/-- C3: on a table that is still registered, for an eligible user whose record
is located, `chatTypingCheckStopped` run at time `r` returns; when `Typing` was
true and `r - LastTyped ≥ TypingDelay` (equality included) the located record is
afterwards the record before with `Typing = false`; in every other case the
server state is unchanged and nothing is emitted. -/
theorem checkStopped_clears_iff_quiet (R : Roster) (r : Int) (srv : Server) (t : TableRef)
    (u : Int) (p : Participant)
    (hreg : getTableAndLock srv (srv.heap t).ID false true = some t)
    (helig : eligible R (srv.heap t) u = true)
    (hloc : locatedFor R (srv.heap t) u = some p) :
    ∃ srv1 es, chatTypingCheckStopped R r srv t u = some (srv1, es) ∧
      ((p.Typing = true ∧ TypingDelay ≤ r - p.LastTyped) →
        located (srv1.heap t) (R.GetPlayerIndexFromID (srv.heap t) u)
          (R.GetSpectatorIndexFromID (srv.heap t) u) = some { p with Typing := false }) ∧
      (¬ (p.Typing = true ∧ TypingDelay ≤ r - p.LastTyped) → srv1 = srv ∧ es = []) := by
  unfold locatedFor at hloc
  rw [checkStopped_of_eligible r hreg helig, checkStoppedLocated_of_located hloc]
  by_cases hc : p.Typing = true ∧ TypingDelay ≤ r - p.LastTyped
  · rw [if_pos hc]
    refine ⟨_, _, rfl, fun _ => ?_, fun h => absurd hc h⟩
    rw [store_heap_self]
    exact located_setLocated _ hloc
  · rw [if_neg hc]
    exact ⟨_, _, rfl, fun h => absurd h hc, fun _ => ⟨rfl, rfl⟩⟩

/-- Instance of C3 at the threshold: Alice typed last at 1 second and the
reconciliation runs at 3 seconds, so the elapsed time is exactly `TypingDelay`. -/
theorem checkStopped_clears_iff_quiet_witness :
    getTableAndLock busyServer (busyServer.heap 0).ID false true = some 0 ∧
    eligible scanRoster (busyServer.heap 0) 1 = true ∧
    locatedFor scanRoster (busyServer.heap 0) 1 = some ⟨1, "Alice", true, 1000000000⟩ ∧
    (3000000000 : Int) - 1000000000 = TypingDelay ∧
    ∃ srv1 es, chatTypingCheckStopped scanRoster 3000000000 busyServer 0 1 = some (srv1, es) ∧
      located (srv1.heap 0) 0 (-1) = some ⟨1, "Alice", false, 1000000000⟩ := by
  refine ⟨rfl, rfl, rfl, by decide, ?_⟩
  obtain ⟨srv1, es, h1, h2, -⟩ := checkStopped_clears_iff_quiet scanRoster 3000000000
    busyServer 0 1 ⟨1, "Alice", true, 1000000000⟩ rfl rfl rfl
  exact ⟨srv1, es, h1, h2 ⟨rfl, by decide⟩⟩

/-! ## Rejected keystrokes and stale reconciliations -/

/-- C7: when the table exists and `IsPlayerOrSpectating` is false for the acting
user, `commandChatTyping` returns the server state unchanged and its only
effect is one warning to the session of the acting user: no typing
notification is emitted and no reconciliation is started. -/
theorem ineligible_keystroke_only_warns (R : Roster) (now : Int) (srv : Server)
    (s : Session) (d : CommandData) (t : TableRef)
    (hreg : getTableAndLock srv d.TableID (!d.NoTableLock) (!d.NoTablesLock) = some t)
    (h : R.IsPlayerOrSpectating (srv.heap t) s.UserID = false) :
    ∃ es, commandChatTyping R now srv s d = some (srv, es) ∧
      es = [Effect.Warning s ("You are not playing or spectating at table "
        ++ toString (srv.heap t).ID ++ ", so you cannot report that you are typing.")] ∧
      notifications es = [] ∧ scheduled es = [] :=
  ⟨_, commandChatTyping_of_not_member now hreg h, rfl, rfl, rfl⟩

/-- Instance of C7: user 9 is not on `demoTable`. -/
theorem ineligible_keystroke_only_warns_witness :
    getTableAndLock demoServer 15103 (!false) (!false) = some 0 ∧
    scanRoster.IsPlayerOrSpectating (demoServer.heap 0) 9 = false ∧
    ∃ es, commandChatTyping scanRoster 7 demoServer ⟨9⟩ ⟨15103, false, false⟩
        = some (demoServer, es) ∧
      es = [Effect.Warning ⟨9⟩ ("You are not playing or spectating at table "
        ++ toString (demoServer.heap 0).ID ++ ", so you cannot report that you are typing.")] ∧
      notifications es = [] ∧ scheduled es = [] :=
  ⟨rfl, rfl, ineligible_keystroke_only_warns scanRoster 7 demoServer ⟨9⟩
    ⟨15103, false, false⟩ 0 rfl rfl⟩

/-- C8: on a table with `Replay = true`, for a user for whom
`IsActivelySpectating` is false, `commandChatTyping` returns the server state
unchanged, emits no typing notification and starts no reconciliation; this
holds whether or not the user has a player record or a spectator record on the
table. -/
theorem replay_passive_keystroke_no_effect (R : Roster) (now : Int) (srv : Server)
    (s : Session) (d : CommandData) (t : TableRef)
    (hreg : getTableAndLock srv d.TableID (!d.NoTableLock) (!d.NoTablesLock) = some t)
    (hreplay : (srv.heap t).Replay = true)
    (hpassive : R.IsActivelySpectating (srv.heap t) s.UserID = false) :
    ∃ es, commandChatTyping R now srv s d = some (srv, es) ∧
      notifications es = [] ∧ scheduled es = [] := by
  have helig : eligible R (srv.heap t) s.UserID = false := by
    simp [eligible, hreplay, hpassive]
  obtain ⟨msg, h⟩ := commandChatTyping_of_ineligible now hreg helig
  exact ⟨_, h, rfl, rfl⟩

/-- Instance of C8: user 1 has a player record on `replayTable` and is not a
spectator of the replay. -/
theorem replay_passive_keystroke_no_effect_witness :
    getTableAndLock replayServer 15103 (!false) (!false) = some 0 ∧
    (replayServer.heap 0).Replay = true ∧
    scanRoster.GetPlayerIndexFromID (replayServer.heap 0) 1 = 0 ∧
    scanRoster.IsActivelySpectating (replayServer.heap 0) 1 = false ∧
    ∃ es, commandChatTyping scanRoster 7 replayServer ⟨1⟩ ⟨15103, false, false⟩
        = some (replayServer, es) ∧
      notifications es = [] ∧ scheduled es = [] :=
  ⟨rfl, rfl, rfl, rfl, replay_passive_keystroke_no_effect scanRoster 7 replayServer ⟨1⟩
    ⟨15103, false, false⟩ 0 rfl rfl rfl⟩

/-- C9: when the identifier of the captured table resolves to no table, or to a
table instance other than the captured one, `chatTypingCheckStopped` returns
the server state unchanged (no record of the captured table or of the successor
is written) and emits nothing. -/
theorem stale_table_reconciliation_no_effect (R : Roster) (now : Int) (srv : Server)
    (t : TableRef) (u : Int)
    (h : getTableAndLock srv (srv.heap t).ID false true = none ∨
      ∃ t2, getTableAndLock srv (srv.heap t).ID false true = some t2 ∧ t2 ≠ t) :
    chatTypingCheckStopped R now srv t u = some (srv, []) := by
  apply checkStopped_of_unregistered
  rcases h with h | ⟨t2, h, hne⟩
  · rw [h]
    simp
  · rw [h]
    intro he
    exact hne (Option.some.inj he)

/-- Instance of C9: the table captured at reference 0 was torn down and its
identifier now resolves to the table at reference 1, on which the same user has
`Typing = true` and typed last 99 seconds before the reconciliation runs. -/
theorem stale_table_reconciliation_no_effect_witness :
    getTableAndLock reusedServer (reusedServer.heap 0).ID false true = some 1 ∧
    eligible scanRoster (reusedServer.heap 1) 1 = true ∧
    locatedFor scanRoster (reusedServer.heap 1) 1 = some ⟨1, "Alice", true, 1000000000⟩ ∧
    TypingDelay ≤ (100000000000 : Int) - 1000000000 ∧
    chatTypingCheckStopped scanRoster 100000000000 reusedServer 0 1 = some (reusedServer, []) :=
  ⟨rfl, rfl, rfl, by decide,
    stale_table_reconciliation_no_effect scanRoster 100000000000 reusedServer 0 1
      (Or.inr ⟨1, rfl, by decide⟩)⟩

/-- C10: both entry points are gated by the same predicate
`IsPlayerOrSpectating(user) and (IsActivelySpectating(user) or not Replay)`,
evaluated on the same table. When it is true, `commandChatTyping` is the call
of `chatTyping` and, on a table that is still registered,
`chatTypingCheckStopped` goes on to locate the record. When it is false,
`commandChatTyping` only warns and `chatTypingCheckStopped` returns the server
state unchanged and emits nothing. -/
theorem same_eligibility_gate (R : Roster) (now : Int) (srv : Server) (s : Session)
    (d : CommandData) (t : TableRef)
    (hreg : getTableAndLock srv d.TableID (!d.NoTableLock) (!d.NoTablesLock) = some t) :
    (eligible R (srv.heap t) s.UserID =
      (R.IsPlayerOrSpectating (srv.heap t) s.UserID &&
        (R.IsActivelySpectating (srv.heap t) s.UserID || !(srv.heap t).Replay))) ∧
    (eligible R (srv.heap t) s.UserID = true →
      commandChatTyping R now srv s d =
        chatTyping now srv s t (R.GetPlayerIndexFromID (srv.heap t) s.UserID)
          (R.GetSpectatorIndexFromID (srv.heap t) s.UserID) ∧
      (getTableAndLock srv (srv.heap t).ID false true = some t →
        chatTypingCheckStopped R now srv t s.UserID =
          chatTypingCheckStoppedLocated now srv t (R.GetPlayerIndexFromID (srv.heap t) s.UserID)
            (R.GetSpectatorIndexFromID (srv.heap t) s.UserID))) ∧
    (eligible R (srv.heap t) s.UserID = false →
      (∃ msg, commandChatTyping R now srv s d = some (srv, [Effect.Warning s msg])) ∧
      chatTypingCheckStopped R now srv t s.UserID = some (srv, [])) :=
  ⟨rfl,
    fun helig => ⟨commandChatTyping_of_eligible now hreg helig,
      fun hreg2 => checkStopped_of_eligible now hreg2 helig⟩,
    fun helig => ⟨commandChatTyping_of_ineligible now hreg helig,
      checkStopped_of_ineligible now helig⟩⟩

/-- Instance of C10 on `replayTable`: user 1, a player who is not spectating the
replay, is turned away by both operations. -/
theorem same_eligibility_gate_witness :
    getTableAndLock replayServer 15103 (!false) (!false) = some 0 ∧
    eligible scanRoster (replayServer.heap 0) 1 = false ∧
    (∃ msg, commandChatTyping scanRoster 7 replayServer ⟨1⟩ ⟨15103, false, false⟩
      = some (replayServer, [Effect.Warning ⟨1⟩ msg])) ∧
    chatTypingCheckStopped scanRoster 7 replayServer 0 1 = some (replayServer, []) :=
  ⟨rfl, rfl, (same_eligibility_gate scanRoster 7 replayServer ⟨1⟩
    ⟨15103, false, false⟩ 0 rfl).2.2 rfl⟩

/-! ## Executions -/

theorem run_cons_ok {R : Roster} {sys sysF : System} {a : Action} {rest : List Action}
    (h : System.run R sys (a :: rest) = Except.ok sysF) :
    ∃ sys1, sys.step R a = Except.ok sys1 ∧ System.run R sys1 rest = Except.ok sysF := by
  unfold System.run at h
  cases hs : sys.step R a with
  | error e => rw [hs] at h; cases h
  | ok sys1 => rw [hs] at h; exact ⟨sys1, rfl, h⟩

theorem run_append_ok {R : Roster} {xs ys : List Action} {sys sysF : System}
    (h : System.run R sys (xs ++ ys) = Except.ok sysF) :
    ∃ mid, System.run R sys xs = Except.ok mid ∧ System.run R mid ys = Except.ok sysF := by
  induction xs generalizing sys with
  | nil => exact ⟨sys, rfl, h⟩
  | cons a rest ih =>
    obtain ⟨sys1, hs, hr⟩ := run_cons_ok h
    obtain ⟨mid, h1, h2⟩ := ih hr
    refine ⟨mid, ?_, h2⟩
    unfold System.run
    rw [hs]
    exact h1

theorem step_keystroke_ok {R : Roster} {sys sys1 : System} {now : Int} {s : Session}
    {d : CommandData} (h : sys.step R (Action.keystroke now s d) = Except.ok sys1) :
    sys.clock ≤ now ∧ ∃ srv1 es, commandChatTyping R now sys.srv s d = some (srv1, es) ∧
      sys1 = { srv := srv1, tasks := sys.tasks ++ spawn now es,
               log := sys.log ++ stamp now es, clock := now } := by
  simp only [System.step] at h
  by_cases hc : now < sys.clock
  · rw [if_pos hc] at h
    cases h
  · rw [if_neg hc] at h
    cases hcmd : commandChatTyping R now sys.srv s d with
    | none => rw [hcmd] at h; cases h
    | some r =>
      obtain ⟨srv1, es⟩ := r
      rw [hcmd] at h
      exact ⟨not_lt.mp hc, srv1, es, rfl, (Except.ok.inj h).symm⟩

theorem step_wake_ok {R : Roster} {sys sys1 : System} {i : Nat} {now : Int}
    (h : sys.step R (Action.wake i now) = Except.ok sys1) :
    sys.clock ≤ now ∧ ∃ k srv1 es, sys.tasks[i]? = some k ∧ k.spawned + TypingDelay ≤ now ∧
      chatTypingCheckStopped R now sys.srv k.table k.userID = some (srv1, es) ∧
      sys1 = { srv := srv1, tasks := sys.tasks.eraseIdx i,
               log := sys.log ++ stamp now es, clock := now } := by
  simp only [System.step] at h
  by_cases hc : now < sys.clock
  · rw [if_pos hc] at h
    cases h
  · rw [if_neg hc] at h
    cases hk : sys.tasks[i]? with
    | none => rw [hk] at h; cases h
    | some k =>
      rw [hk] at h
      simp only [] at h
      by_cases hr : k.spawned + TypingDelay ≤ now
      · have hready : (!k.ready now) = false := by simp [Task.ready, hr]
        rw [hready] at h
        simp only [Bool.false_eq_true, if_false] at h
        cases hcs : chatTypingCheckStopped R now sys.srv k.table k.userID with
        | none => rw [hcs] at h; cases h
        | some r =>
          obtain ⟨srv1, es⟩ := r
          rw [hcs] at h
          exact ⟨not_lt.mp hc, k, srv1, es, rfl, hr, hcs, (Except.ok.inj h).symm⟩
      · have hready : (!k.ready now) = true := by simp [Task.ready, hr]
        rw [hready] at h
        simp only [if_true] at h
        cases h

theorem step_clock {R : Roster} {sys sys1 : System} {a : Action}
    (h : sys.step R a = Except.ok sys1) : sys.clock ≤ sys1.clock := by
  cases a with
  | keystroke now s d =>
    obtain ⟨hc, srv1, es, -, rfl⟩ := step_keystroke_ok h
    exact hc
  | wake i now =>
    obtain ⟨hc, k, srv1, es, -, -, -, rfl⟩ := step_wake_ok h
    exact hc

/-- The clock never runs backwards: every keystroke of an execution is handled
at or after the clock reading of the state the execution starts from. -/
theorem run_clock_le_keys {R : Roster} {acts : List Action} {sys sysF : System}
    (h : System.run R sys acts = Except.ok sysF) : ∀ a ∈ keyTimes acts, sys.clock ≤ a := by
  induction acts generalizing sys with
  | nil => intro a ha; cases ha
  | cons act rest ih =>
    obtain ⟨sys1, hs, hr⟩ := run_cons_ok h
    have hc := step_clock hs
    cases act with
    | keystroke now s d =>
      obtain ⟨hc1, srv1, es, -, rfl⟩ := step_keystroke_ok hs
      intro a ha
      simp only [keyTimes, List.mem_cons] at ha
      rcases ha with rfl | ha
      · exact hc1
      · exact le_trans hc (ih hr a ha)
    | wake i now =>
      intro a ha
      simp only [keyTimes] at ha
      exact le_trans hc (ih hr a ha)

/-! ## One participant: what a step does -/

theorem eligible_congr {R : Roster} (hR : R.Frame) {a b : Table} (h : a.sameRoster b)
    (u : Int) : eligible R a u = eligible R b u := by
  unfold eligible
  rw [hR.playerOrSpectating a b u h, hR.activelySpectating a b u h, h.2.1]

/-- Replacing the located record by one with the same user and name keeps the
setting and makes the new record the located one. -/
theorem scene_store {R : Roster} (hR : R.Frame) {s : Session} {d : CommandData}
    {t : TableRef} {srv : Server} {p : Participant} (q : Participant)
    (hsc : Scene R s d t srv) (hloc : locatedFor R (srv.heap t) s.UserID = some p)
    (hq : q.ident = p.ident) :
    Scene R s d t (srv.store t ((srv.heap t).setLocated
        (R.GetPlayerIndexFromID (srv.heap t) s.UserID)
        (R.GetSpectatorIndexFromID (srv.heap t) s.UserID) q)) ∧
    locatedFor R ((srv.store t ((srv.heap t).setLocated
        (R.GetPlayerIndexFromID (srv.heap t) s.UserID)
        (R.GetSpectatorIndexFromID (srv.heap t) s.UserID) q)).heap t) s.UserID = some q ∧
    ((srv.store t ((srv.heap t).setLocated
        (R.GetPlayerIndexFromID (srv.heap t) s.UserID)
        (R.GetSpectatorIndexFromID (srv.heap t) s.UserID) q)).heap t).ID = (srv.heap t).ID := by
  unfold locatedFor at hloc
  have hsame := sameRoster_setLocated q hloc hq
  rw [store_heap_self]
  refine ⟨⟨?_, ?_⟩, ?_, hsame.1⟩
  · exact hsc.registered
  · rw [store_heap_self, eligible_congr hR hsame]
    exact hsc.elig
  · unfold locatedFor
    rw [hR.playerIndex _ _ _ hsame, hR.spectatorIndex _ _ _ hsame]
    exact located_setLocated q hloc

theorem spawn_append (now : Int) (xs ys : List Effect) :
    spawn now (xs ++ ys) = spawn now xs ++ spawn now ys := by
  induction xs with
  | nil => rfl
  | cons e rest ih => cases e <;> simp [spawn, ih]

theorem spawn_notifyIfNamed (now : Int) (t : TableRef) (name : String) (b : Bool) :
    spawn now (notifyIfNamed t name b) = [] := by
  unfold notifyIfNamed
  split_ifs <;> rfl

theorem tasksFor_append {t : TableRef} {u : Int} {xs ys : List Task}
    (hx : tasksFor t u xs) (hy : tasksFor t u ys) : tasksFor t u (xs ++ ys) := by
  intro k hk
  rcases List.mem_append.mp hk with h | h
  · exact hx k h
  · exact hy k h

theorem tasksFor_eraseIdx {t : TableRef} {u : Int} {xs : List Task} (i : Nat)
    (hx : tasksFor t u xs) : tasksFor t u (xs.eraseIdx i) :=
  fun k hk => hx k (List.mem_of_mem_eraseIdx hk)

/-- An accepted keystroke of the participant. -/
theorem focus_keystroke {R : Roster} (hR : R.Frame) {s : Session} {d : CommandData}
    {t : TableRef} {p : Participant} {sys sys1 : System} {now : Int}
    (hf : Focus R s d t p sys)
    (h : sys.step R (Action.keystroke now s d) = Except.ok sys1) :
    Focus R s d t { p with Typing := true, LastTyped := now } sys1 ∧
    sys.clock ≤ now ∧ sys1.clock = now ∧
    sys1.log = sys.log ++ stamp now
      (notifyIfNamed t (if p.Typing then "" else p.Name) true ++ [Effect.Go t s.UserID]) ∧
    sys1.tasks = sys.tasks ++ [⟨t, s.UserID, now⟩] ∧
    sys1.srv.tables = sys.srv.tables ∧
    (sys1.srv.heap t).ID = (sys.srv.heap t).ID := by
  obtain ⟨hc, srv1, es, hcmd, rfl⟩ := step_keystroke_ok h
  have hloc := hf.loc
  rw [commandChatTyping_of_eligible now hf.scene.registered hf.scene.elig,
    chatTyping_of_located (by simpa [locatedFor] using hloc)] at hcmd
  obtain ⟨rfl, rfl⟩ := Prod.mk.inj (Option.some.inj hcmd)
  obtain ⟨h1, h2, h3⟩ := scene_store hR { p with Typing := true, LastTyped := now }
    hf.scene hloc rfl
  have hsp : spawn now (notifyIfNamed t (if p.Typing = true then "" else p.Name) true
      ++ [Effect.Go t s.UserID]) = [⟨t, s.UserID, now⟩] := by
    rw [spawn_append, spawn_notifyIfNamed]
    rfl
  refine ⟨⟨h1, h2, ?_⟩, hc, rfl, rfl, ?_, rfl, h3⟩
  · show tasksFor t s.UserID (sys.tasks ++ spawn now _)
    rw [hsp]
    refine tasksFor_append hf.tasks ?_
    intro k hk
    rw [List.mem_singleton] at hk
    subst hk
    exact ⟨rfl, rfl⟩
  · show sys.tasks ++ spawn now _ = _
    rw [hsp]

/-- A run of a goroutine of the participant: either nothing changes, or the
flag was set with at least `TypingDelay` elapsed and is cleared. On a table
that is still registered the first case means that the clearing condition did
not hold. -/
theorem focus_wake {R : Roster} (hR : R.Frame) {s : Session} {d : CommandData}
    {t : TableRef} {p : Participant} {sys sys1 : System} {i : Nat} {now : Int}
    (hf : Focus R s d t p sys)
    (h : sys.step R (Action.wake i now) = Except.ok sys1) :
    sys.clock ≤ now ∧ sys1.clock = now ∧ sys1.tasks = sys.tasks.eraseIdx i ∧
    (∃ k, sys.tasks[i]? = some k ∧ k.spawned + TypingDelay ≤ now) ∧
    ((sys1.srv = sys.srv ∧ sys1.log = sys.log ∧ Focus R s d t p sys1 ∧
        (getTableAndLock sys.srv (sys.srv.heap t).ID false true = some t →
          ¬ (p.Typing = true ∧ TypingDelay ≤ now - p.LastTyped))) ∨
     (p.Typing = true ∧ TypingDelay ≤ now - p.LastTyped ∧
        Focus R s d t { p with Typing := false } sys1 ∧
        sys1.log = sys.log ++ stamp now (notifyIfNamed t p.Name false) ∧
        sys1.srv.tables = sys.srv.tables ∧
        (sys1.srv.heap t).ID = (sys.srv.heap t).ID)) := by
  obtain ⟨hc, k, srv1, es, hk, hready, hcs, rfl⟩ := step_wake_ok h
  have hkt := hf.tasks k (List.getElem?_mem hk)
  rw [hkt.1, hkt.2] at hcs
  have hloc := hf.loc
  refine ⟨hc, rfl, rfl, ⟨k, hk, hready⟩, ?_⟩
  by_cases hreg : getTableAndLock sys.srv (sys.srv.heap t).ID false true = some t
  · rw [checkStopped_of_eligible now hreg hf.scene.elig,
      checkStoppedLocated_of_located (by simpa [locatedFor] using hloc)] at hcs
    by_cases hcond : p.Typing = true ∧ TypingDelay ≤ now - p.LastTyped
    · rw [if_pos hcond] at hcs
      obtain ⟨rfl, rfl⟩ := Prod.mk.inj (Option.some.inj hcs)
      obtain ⟨h1, h2, h3⟩ := scene_store hR { p with Typing := false } hf.scene hloc rfl
      exact Or.inr ⟨hcond.1, hcond.2, ⟨h1, h2, tasksFor_eraseIdx i hf.tasks⟩, rfl, rfl, h3⟩
    · rw [if_neg hcond] at hcs
      obtain ⟨rfl, rfl⟩ := Prod.mk.inj (Option.some.inj hcs)
      refine Or.inl ⟨rfl, ?_, ⟨hf.scene, hloc, tasksFor_eraseIdx i hf.tasks⟩, fun _ => hcond⟩
      simp [stamp]
  · rw [checkStopped_of_unregistered now _ hreg] at hcs
    obtain ⟨rfl, rfl⟩ := Prod.mk.inj (Option.some.inj hcs)
    refine Or.inl ⟨rfl, ?_, ⟨hf.scene, hloc, tasksFor_eraseIdx i hf.tasks⟩,
      fun h => absurd h hreg⟩
    simp [stamp]

/-! ## One participant: what an execution does -/

theorem timesOf_append (e : Effect) (xs ys : List (Int × Effect)) :
    timesOf e (xs ++ ys) = timesOf e xs ++ timesOf e ys := by
  simp [timesOf]

theorem mem_stamp {now : Int} {es : List Effect} {x : Int × Effect} :
    x ∈ stamp now es ↔ x.1 = now ∧ x.2 ∈ es := by
  obtain ⟨a, e⟩ := x
  simp only [stamp, List.mem_map, Prod.mk.injEq]
  constructor
  · rintro ⟨e1, he1, rfl, rfl⟩
    exact ⟨rfl, he1⟩
  · rintro ⟨rfl, he⟩
    exact ⟨e, he, rfl, rfl⟩

theorem mem_notifyIfNamed {t : TableRef} {name : String} {b : Bool} {e : Effect}
    (h : e ∈ notifyIfNamed t name b) : e = Effect.NotifyChatTyping t name b := by
  unfold notifyIfNamed at h
  split_ifs at h
  · simpa using h
  · cases h

theorem timesOf_eq_nil {e : Effect} {log : List (Int × Effect)}
    (h : ∀ x ∈ log, x.2 ≠ e) : timesOf e log = [] := by
  unfold timesOf
  rw [List.map_eq_nil_iff, List.filter_eq_nil_iff]
  intro x hx
  simpa using h x hx

theorem timesOf_stamp_single (e : Effect) (now : Int) :
    timesOf e (stamp now [e]) = [now] := by
  simp [timesOf, stamp]

theorem keyTimes_append (xs ys : List Action) :
    keyTimes (xs ++ ys) = keyTimes xs ++ keyTimes ys := by
  induction xs with
  | nil => rfl
  | cons a rest ih => cases a <;> simp [keyTimes, ih]

theorem keyTimes_of_wakes {post : List Action} (h : ∀ a ∈ post, a.isWake) :
    keyTimes post = [] := by
  induction post with
  | nil => rfl
  | cons a rest ih =>
    cases a with
    | keystroke now s d => exact absurd (h _ (List.mem_cons_self _ _)) (by simp [Action.isWake])
    | wake i now =>
      simp only [keyTimes]
      exact ih (fun a ha => h a (List.mem_cons_of_mem _ ha))

theorem run_nil_ok {R : Roster} {sys sysF : System}
    (h : System.run R sys [] = Except.ok sysF) : sysF = sys := by
  unfold System.run at h
  exact (Except.ok.inj h).symm

/-- Along any execution of the participant the setting is kept, and so are the
name of the record, the registry and the identifier of the table. -/
theorem focus_run {R : Roster} (hR : R.Frame) {s : Session} {d : CommandData}
    {t : TableRef} {acts : List Action} {p : Participant} {sys sysF : System}
    (hf : Focus R s d t p sys) (hacts : ∀ a ∈ acts, a.fromSession s d)
    (h : System.run R sys acts = Except.ok sysF) :
    ∃ q, Focus R s d t q sysF ∧ q.Name = p.Name ∧
      sysF.srv.tables = sys.srv.tables ∧ (sysF.srv.heap t).ID = (sys.srv.heap t).ID := by
  induction acts generalizing sys p with
  | nil =>
    rw [run_nil_ok h]
    exact ⟨p, hf, rfl, rfl, rfl⟩
  | cons a rest ih =>
    obtain ⟨sys1, hs, hr⟩ := run_cons_ok h
    have hrest : ∀ a ∈ rest, a.fromSession s d := fun a ha => hacts a (List.mem_cons_of_mem _ ha)
    cases a with
    | keystroke now s1 d1 =>
      obtain ⟨rfl, rfl⟩ : s1 = s ∧ d1 = d := hacts _ (List.mem_cons_self _ _)
      obtain ⟨hf1, -, -, -, -, ht, hid⟩ := focus_keystroke hR hf hs
      obtain ⟨q, hq, hn, ht2, hid2⟩ := ih hf1 hrest hr
      exact ⟨q, hq, hn, ht2.trans ht, hid2.trans hid⟩
    | wake i now =>
      obtain ⟨-, -, -, -, hcase⟩ := focus_wake hR hf hs
      rcases hcase with ⟨hsrv, -, hf1, -⟩ | ⟨-, -, hf1, -, ht, hid⟩
      · obtain ⟨q, hq, hn, ht2, hid2⟩ := ih hf1 hrest hr
        rw [hsrv] at ht2 hid2
        exact ⟨q, hq, hn, ht2, hid2⟩
      · obtain ⟨q, hq, hn, ht2, hid2⟩ := ih hf1 hrest hr
        exact ⟨q, hq, hn, ht2.trans ht, hid2.trans hid⟩

/-- Runs of goroutines never emit a start notification. -/
theorem wakes_emit_no_start {R : Roster} (hR : R.Frame) {s : Session} {d : CommandData}
    {t : TableRef} {post : List Action} {p : Participant} {sys sysF : System}
    (hf : Focus R s d t p sys) (hpost : ∀ a ∈ post, a.isWake)
    (h : System.run R sys post = Except.ok sysF) (name : String) :
    timesOf (Effect.NotifyChatTyping t name true) sysF.log =
      timesOf (Effect.NotifyChatTyping t name true) sys.log := by
  induction post generalizing sys p with
  | nil => rw [run_nil_ok h]
  | cons a rest ih =>
    obtain ⟨sys1, hs, hr⟩ := run_cons_ok h
    have hrest : ∀ a ∈ rest, a.isWake := fun a ha => hpost a (List.mem_cons_of_mem _ ha)
    cases a with
    | keystroke now s1 d1 =>
      exact absurd (hpost _ (List.mem_cons_self _ _)) (by simp [Action.isWake])
    | wake i now =>
      obtain ⟨-, -, -, -, hcase⟩ := focus_wake hR hf hs
      rcases hcase with ⟨-, hlog, hf1, -⟩ | ⟨-, -, hf1, hlog, -, -⟩
      · rw [ih hf1 hrest hr, hlog]
      · have hnil : timesOf (Effect.NotifyChatTyping t name true)
            (stamp now (notifyIfNamed t p.Name false)) = [] := by
          apply timesOf_eq_nil
          intro x hx he
          have h2 := mem_notifyIfNamed (mem_stamp.mp hx).2
          rw [he] at h2
          cases h2
        rw [ih hf1 hrest hr, hlog, timesOf_append, hnil, List.append_nil]

/-- While the flag is clear, runs of goroutines change nothing. -/
theorem idle_wakes_no_effect {R : Roster} (hR : R.Frame) {s : Session} {d : CommandData}
    {t : TableRef} {post : List Action} {p : Participant} {sys sysF : System}
    (hf : Focus R s d t p sys) (hidle : p.Typing = false) (hpost : ∀ a ∈ post, a.isWake)
    (h : System.run R sys post = Except.ok sysF) :
    sysF.log = sys.log ∧ Focus R s d t p sysF := by
  induction post generalizing sys with
  | nil =>
    rw [run_nil_ok h]
    exact ⟨rfl, hf⟩
  | cons a rest ih =>
    obtain ⟨sys1, hs, hr⟩ := run_cons_ok h
    have hrest : ∀ a ∈ rest, a.isWake := fun a ha => hpost a (List.mem_cons_of_mem _ ha)
    cases a with
    | keystroke now s1 d1 =>
      exact absurd (hpost _ (List.mem_cons_self _ _)) (by simp [Action.isWake])
    | wake i now =>
      obtain ⟨-, -, -, -, hcase⟩ := focus_wake hR hf hs
      rcases hcase with ⟨-, hlog, hf1, -⟩ | ⟨hT, -⟩
      · obtain ⟨h1, h2⟩ := ih hf1 hrest hr
        exact ⟨h1.trans hlog, h2⟩
      · rw [hidle] at hT
        cases hT

theorem timesOf_keystroke_typing (t : TableRef) (u : Int) (now : Int) (name : String)
    (b : Bool) :
    timesOf (Effect.NotifyChatTyping t name b)
      (stamp now (notifyIfNamed t "" true ++ [Effect.Go t u])) = [] := by
  rw [notifyIfNamed_empty]
  simp [timesOf, stamp]

/-- While the participant keeps typing with gaps below `TypingDelay`, nothing is
notified: every reconciliation that runs before the next keystroke finds less
than `TypingDelay` elapsed. -/
theorem typing_run_quiet {R : Roster} (hR : R.Frame) {s : Session} {d : CommandData}
    {t : TableRef} {pre : List Action} {p : Participant} {sys sysF : System} {aN : Int}
    (hf : Focus R s d t p sys) (hT : p.Typing = true)
    (hpre : ∀ a ∈ pre, a.fromSession s d)
    (hgap : List.Chain (fun a b => b - a < TypingDelay) p.LastTyped
      (keyTimes (pre ++ [Action.keystroke aN s d])))
    (h : System.run R sys (pre ++ [Action.keystroke aN s d]) = Except.ok sysF) :
    Focus R s d t { p with Typing := true, LastTyped := aN } sysF ∧
    (⟨t, s.UserID, aN⟩ : Task) ∈ sysF.tasks ∧
    ∀ name b, timesOf (Effect.NotifyChatTyping t name b) sysF.log =
      timesOf (Effect.NotifyChatTyping t name b) sys.log := by
  induction pre generalizing sys p with
  | nil =>
    obtain ⟨sys1, hs, hr⟩ := run_cons_ok h
    rw [run_nil_ok hr]
    obtain ⟨hf1, -, -, hlog, htasks, -, -⟩ := focus_keystroke hR hf hs
    refine ⟨hf1, ?_, ?_⟩
    · rw [htasks]
      simp
    · intro name b
      rw [hlog, hT, timesOf_append]
      simp only [if_true]
      rw [timesOf_keystroke_typing, List.append_nil]
  | cons a rest ih =>
    rw [List.cons_append] at h hgap
    obtain ⟨sys1, hs, hr⟩ := run_cons_ok h
    have hrest : ∀ a ∈ rest, a.fromSession s d := fun a ha => hpre a (List.mem_cons_of_mem _ ha)
    cases a with
    | keystroke now s1 d1 =>
      obtain ⟨rfl, rfl⟩ : s1 = s ∧ d1 = d := hpre _ (List.mem_cons_self _ _)
      obtain ⟨hf1, -, -, hlog, -, -, -⟩ := focus_keystroke hR hf hs
      simp only [keyTimes, List.chain_cons] at hgap
      obtain ⟨h1, h2, h3⟩ := ih hf1 rfl hrest hgap.2 hr
      refine ⟨h1, h2, ?_⟩
      intro name b
      rw [h3 name b, hlog, hT, timesOf_append]
      simp only [if_true]
      rw [timesOf_keystroke_typing, List.append_nil]
    | wake i now =>
      obtain ⟨-, hclock, -, -, hcase⟩ := focus_wake hR hf hs
      simp only [keyTimes] at hgap
      have hnext : ∃ a1 l, keyTimes (rest ++ [Action.keystroke aN s d]) = a1 :: l := by
        rw [keyTimes_append]
        cases keyTimes rest with
        | nil => exact ⟨aN, [], rfl⟩
        | cons a1 l => exact ⟨a1, _, rfl⟩
      obtain ⟨a1, l, hkt⟩ := hnext
      have hle : sys1.clock ≤ a1 := run_clock_le_keys hr a1 (by rw [hkt]; simp)
      rw [hkt, List.chain_cons] at hgap
      rcases hcase with ⟨-, hlog, hf1, -⟩ | ⟨-, hlate, -⟩
      · have hgap2 : List.Chain (fun a b => b - a < TypingDelay) p.LastTyped
            (keyTimes (rest ++ [Action.keystroke aN s d])) := by
          rw [hkt, List.chain_cons]
          exact hgap
        obtain ⟨h1, h2, h3⟩ := ih hf1 hT hrest hgap2 hr
        refine ⟨h1, h2, ?_⟩
        intro name b
        rw [h3 name b, hlog]
      · have := hgap.1
        omega

/-- From a clear flag, an execution that ends with a keystroke and has gaps
below `TypingDelay` between its keystrokes emits one start notification, at the
first keystroke, and no stop notification. -/
theorem idle_run_one_start {R : Roster} (hR : R.Frame) {s : Session} {d : CommandData}
    {t : TableRef} {pre : List Action} {p : Participant} {sys sysF : System} {aN : Int}
    (hf : Focus R s d t p sys) (hT : p.Typing = false) (hname : p.Name ≠ "")
    (hpre : ∀ a ∈ pre, a.fromSession s d)
    (hgap : gapsBelowDelay (keyTimes (pre ++ [Action.keystroke aN s d])))
    (h : System.run R sys (pre ++ [Action.keystroke aN s d]) = Except.ok sysF) :
    timesOf (Effect.NotifyChatTyping t p.Name true) sysF.log =
      timesOf (Effect.NotifyChatTyping t p.Name true) sys.log ++
        (keyTimes (pre ++ [Action.keystroke aN s d])).take 1 ∧
    timesOf (Effect.NotifyChatTyping t p.Name false) sysF.log =
      timesOf (Effect.NotifyChatTyping t p.Name false) sys.log := by
  have hstart : ∀ now : Int,
      timesOf (Effect.NotifyChatTyping t p.Name true)
        (stamp now (notifyIfNamed t p.Name true ++ [Effect.Go t s.UserID])) = [now] := by
    intro now
    rw [notifyIfNamed_of_ne hname]
    simp [timesOf, stamp]
  have hstop : ∀ now : Int,
      timesOf (Effect.NotifyChatTyping t p.Name false)
        (stamp now (notifyIfNamed t p.Name true ++ [Effect.Go t s.UserID])) = [] := by
    intro now
    rw [notifyIfNamed_of_ne hname]
    simp [timesOf, stamp]
  induction pre generalizing sys with
  | nil =>
    obtain ⟨sys1, hs, hr⟩ := run_cons_ok h
    rw [run_nil_ok hr]
    obtain ⟨-, -, -, hlog, -, -, -⟩ := focus_keystroke hR hf hs
    rw [hlog, hT]
    simp only [Bool.false_eq_true, if_false, timesOf_append, hstart, hstop, List.append_nil]
    simp [keyTimes]
  | cons a rest ih =>
    rw [List.cons_append] at h hgap
    obtain ⟨sys1, hs, hr⟩ := run_cons_ok h
    have hrest : ∀ a ∈ rest, a.fromSession s d := fun a ha => hpre a (List.mem_cons_of_mem _ ha)
    cases a with
    | keystroke now s1 d1 =>
      obtain ⟨rfl, rfl⟩ : s1 = s ∧ d1 = d := hpre _ (List.mem_cons_self _ _)
      obtain ⟨hf1, -, -, hlog, -, -, -⟩ := focus_keystroke hR hf hs
      have hgap2 : List.Chain (fun a b => b - a < TypingDelay) now
          (keyTimes (rest ++ [Action.keystroke aN s1 d1])) := hgap
      obtain ⟨-, -, h3⟩ := typing_run_quiet hR hf1 rfl hrest hgap2 hr
      rw [h3, h3, hlog, hT]
      simp only [Bool.false_eq_true, if_false, timesOf_append, hstart, hstop, List.append_nil]
      simp [keyTimes]
    | wake i now =>
      obtain ⟨-, -, -, -, hcase⟩ := focus_wake hR hf hs
      rcases hcase with ⟨-, hlog, hf1, -⟩ | ⟨hT2, -⟩
      · have hgap2 : gapsBelowDelay (keyTimes (rest ++ [Action.keystroke aN s d])) := hgap
        obtain ⟨h1, h2⟩ := ih hf1 hrest hgap2 hr
        rw [h1, h2, hlog]
        exact ⟨rfl, rfl⟩
      · rw [hT] at hT2
        cases hT2

theorem mem_eraseIdx_of_ne {xs : List Task} {i : Nat} {a k : Task} (ha : a ∈ xs)
    (hk : xs[i]? = some k) (hne : a ≠ k) : a ∈ xs.eraseIdx i := by
  obtain ⟨j, hj⟩ := List.mem_iff_getElem?.mp ha
  refine List.mem_eraseIdx_iff_getElem?.mpr ⟨j, ?_, hj⟩
  intro hji
  rw [hji, hk] at hj
  exact hne (Option.some.inj hj).symm

/-- After the last keystroke, at time `aN`: once every goroutine has run, one
stop notification has been emitted, at a time at least `TypingDelay` after `aN`,
and the flag is clear. -/
theorem post_single_stop {R : Roster} (hR : R.Frame) {s : Session} {d : CommandData}
    {t : TableRef} {post : List Action} {p : Participant} {sys sysF : System} {aN : Int}
    (hf : Focus R s d t p sys) (hT : p.Typing = true) (hlast : p.LastTyped = aN)
    (hname : p.Name ≠ "")
    (hmem : (⟨t, s.UserID, aN⟩ : Task) ∈ sys.tasks)
    (hlive : getTableAndLock sys.srv (sys.srv.heap t).ID false true = some t)
    (hpost : ∀ a ∈ post, a.isWake)
    (h : System.run R sys post = Except.ok sysF) (hdone : sysF.tasks = []) :
    ∃ r, aN + TypingDelay ≤ r ∧
      sysF.log = sys.log ++ [(r, Effect.NotifyChatTyping t p.Name false)] ∧
      Focus R s d t { p with Typing := false } sysF := by
  induction post generalizing sys with
  | nil =>
    rw [run_nil_ok h] at hdone
    rw [hdone] at hmem
    cases hmem
  | cons a rest ih =>
    obtain ⟨sys1, hs, hr⟩ := run_cons_ok h
    have hrest : ∀ a ∈ rest, a.isWake := fun a ha => hpost a (List.mem_cons_of_mem _ ha)
    cases a with
    | keystroke now s1 d1 =>
      exact absurd (hpost _ (List.mem_cons_self _ _)) (by simp [Action.isWake])
    | wake i now =>
      obtain ⟨-, -, htasks, ⟨k, hk, hready⟩, hcase⟩ := focus_wake hR hf hs
      rcases hcase with ⟨hsrv, hlog, hf1, hno⟩ | ⟨-, hlate, hf1, hlog, -, -⟩
      · have hearly : ¬ TypingDelay ≤ now - p.LastTyped := fun hc => hno hlive ⟨hT, hc⟩
        have hne : (⟨t, s.UserID, aN⟩ : Task) ≠ k := by
          rintro rfl
          apply hearly
          simp only [] at hready
          omega
        have hmem1 : (⟨t, s.UserID, aN⟩ : Task) ∈ sys1.tasks := by
          rw [htasks]
          exact mem_eraseIdx_of_ne hmem hk hne
        have hlive1 : getTableAndLock sys1.srv (sys1.srv.heap t).ID false true = some t := by
          rw [hsrv]
          exact hlive
        obtain ⟨r, h1, h2, h3⟩ := ih hf1 hmem1 hlive1 hrest hr
        exact ⟨r, h1, by rw [h2, hlog], h3⟩
      · obtain ⟨h1, h2⟩ := idle_wakes_no_effect hR hf1 rfl hrest hr
        refine ⟨now, by omega, ?_, h2⟩
        rw [h1, hlog, notifyIfNamed_of_ne hname]
        rfl

/-- An execution with at least one keystroke splits at its last keystroke. -/
theorem exists_last_keystroke {s : Session} {d : CommandData} {acts : List Action}
    (hacts : ∀ a ∈ acts, a.fromSession s d) (hkeys : keyTimes acts ≠ []) :
    ∃ pre aN post, acts = pre ++ Action.keystroke aN s d :: post ∧
      (∀ a ∈ pre, a.fromSession s d) ∧ (∀ a ∈ post, a.isWake) := by
  induction acts with
  | nil => exact absurd rfl hkeys
  | cons a rest ih =>
    have hrest : ∀ a ∈ rest, a.fromSession s d := fun a ha => hacts a (List.mem_cons_of_mem _ ha)
    by_cases hk : keyTimes rest = []
    · cases a with
      | keystroke now s1 d1 =>
        obtain ⟨rfl, rfl⟩ : s1 = s ∧ d1 = d := hacts _ (List.mem_cons_self _ _)
        refine ⟨[], now, rest, rfl, ?_, ?_⟩
        · intro a ha
          cases ha
        intro a ha
        cases a with
        | keystroke n2 s2 d2 =>
          exfalso
          obtain ⟨l1, l2, rfl⟩ := List.append_of_mem ha
          rw [keyTimes_append] at hk
          simp [keyTimes] at hk
        | wake i n2 => trivial
      | wake i now => exact absurd hk (by simpa [keyTimes] using hkeys)
    · obtain ⟨pre, aN, post, rfl, h1, h2⟩ := ih hrest hk
      refine ⟨a :: pre, aN, post, rfl, ?_, h2⟩
      intro b hb
      rcases List.mem_cons.mp hb with rfl | hb
      · exact hacts _ (List.mem_cons_self _ _)
      · exact h1 b hb

/-! ## The concrete roster lookup and executions -/

theorem indexOfUser_congr {xs ys : List Participant}
    (h : xs.map Participant.ident = ys.map Participant.ident) (u : Int) :
    indexOfUser xs u = indexOfUser ys u := by
  induction xs generalizing ys with
  | nil =>
    cases ys with
    | nil => rfl
    | cons y rest => simp at h
  | cons x rest ih =>
    cases ys with
    | nil => simp at h
    | cons y rest2 =>
      simp only [List.map_cons, List.cons.injEq] at h
      have hu : x.UserID = y.UserID := congrArg Prod.fst h.1
      simp only [indexOfUser, hu, ih h.2]

theorem scanRoster_frame : scanRoster.Frame where
  playerIndex := fun _ _ u h => indexOfUser_congr h.2.2.1 u
  spectatorIndex := fun _ _ u h => indexOfUser_congr h.2.2.2 u
  playerOrSpectating := fun a b u h => by
    simp only [scanRoster, indexOfUser_congr h.2.2.1 u, indexOfUser_congr h.2.2.2 u]
  activelySpectating := fun a b u h => by
    simp only [scanRoster, indexOfUser_congr h.2.2.2 u]

theorem demo_focus : Focus scanRoster aliceSession demoData 0 ⟨1, "Alice", false, 0⟩ demoSystem where
  scene := ⟨rfl, rfl⟩
  loc := rfl
  tasks := fun k hk => by cases hk

theorem runView_eq_some {R : Roster} {sys : System} {acts : List Action}
    {l : List (Int × Effect)} {ks : List Task}
    (h : System.runView R sys acts = some (l, ks)) :
    ∃ sysF, System.run R sys acts = Except.ok sysF ∧ sysF.log = l ∧ sysF.tasks = ks := by
  unfold System.runView at h
  cases hr : System.run R sys acts with
  | error e => rw [hr] at h; cases h
  | ok sysF =>
    rw [hr] at h
    obtain ⟨h1, h2⟩ := Prod.mk.inj (Option.some.inj h)
    exact ⟨sysF, rfl, h1, h2⟩

theorem demo_runView :
    System.runView scanRoster demoSystem demoActions =
      some ([(0, Effect.NotifyChatTyping 0 "Alice" true), (0, Effect.Go 0 1),
             (500000000, Effect.Go 0 1), (1000000000, Effect.Go 0 1),
             (3000000000, Effect.NotifyChatTyping 0 "Alice" false)], []) := by
  rfl

/-! ## The debounce properties -/

/-- C4 (single start): one participant, located, eligible, with a display name
that is not empty and the flag clear at the start. In every execution made of
at least one keystroke of this participant, with gaps below `TypingDelay`
between consecutive keystrokes, and of runs of reconciliations, each no earlier
than `TypingDelay` after the keystroke that started it, exactly one start
notification for the participant is emitted, at the first keystroke. -/
theorem single_start (R : Roster) (hR : R.Frame) (s : Session) (d : CommandData)
    (t : TableRef) (p : Participant) (sys0 sysF : System) (acts : List Action)
    (hf : Focus R s d t p sys0) (hidle : p.Typing = false) (hname : p.Name ≠ "")
    (hacts : ∀ a ∈ acts, a.fromSession s d)
    (hN : 1 ≤ (keyTimes acts).length)
    (hgap : gapsBelowDelay (keyTimes acts))
    (hrun : System.run R sys0 acts = Except.ok sysF) :
    timesOf (Effect.NotifyChatTyping t p.Name true) sysF.log =
      timesOf (Effect.NotifyChatTyping t p.Name true) sys0.log ++ (keyTimes acts).take 1 ∧
    (timesOf (Effect.NotifyChatTyping t p.Name true) sysF.log).length =
      (timesOf (Effect.NotifyChatTyping t p.Name true) sys0.log).length + 1 := by
  have hkeys : keyTimes acts ≠ [] := by
    intro h0
    rw [h0] at hN
    simp at hN
  obtain ⟨pre, aN, post, rfl, hpre, hpost⟩ := exists_last_keystroke hacts hkeys
  have hsplit : pre ++ Action.keystroke aN s d :: post
      = (pre ++ [Action.keystroke aN s d]) ++ post := by simp
  have hkt : keyTimes (pre ++ Action.keystroke aN s d :: post)
      = keyTimes (pre ++ [Action.keystroke aN s d]) := by
    rw [hsplit, keyTimes_append, keyTimes_of_wakes hpost, List.append_nil]
  rw [hkt] at hgap hkeys ⊢
  rw [hsplit] at hrun
  obtain ⟨mid, h1, h2⟩ := run_append_ok hrun
  have hpre2 : ∀ a ∈ pre ++ [Action.keystroke aN s d], a.fromSession s d := by
    intro a ha
    rcases List.mem_append.mp ha with ha | ha
    · exact hpre a ha
    · rw [List.mem_singleton] at ha
      subst ha
      exact ⟨rfl, rfl⟩
  obtain ⟨q, hq, -, -, -⟩ := focus_run hR hf hpre2 h1
  have h3 := (idle_run_one_start hR hf hidle hname hpre hgap h1).1
  have h4 := wakes_emit_no_start hR hq hpost h2 p.Name
  have h5 : timesOf (Effect.NotifyChatTyping t p.Name true) sysF.log =
      timesOf (Effect.NotifyChatTyping t p.Name true) sys0.log ++
        (keyTimes (pre ++ [Action.keystroke aN s d])).take 1 := by
    rw [h4, h3]
  refine ⟨h5, ?_⟩
  rw [h5, List.length_append]
  cases hk : keyTimes (pre ++ [Action.keystroke aN s d]) with
  | nil => exact absurd hk hkeys
  | cons a l => simp

/-- Instance of C4: the scenario of the specification, Alice typing at 0, 0.5
and 1.0 seconds on `demoTable`. -/
theorem single_start_witness :
    gapsBelowDelay (keyTimes demoActions) ∧
    ∃ sysF, System.run scanRoster demoSystem demoActions = Except.ok sysF ∧
      timesOf (Effect.NotifyChatTyping 0 "Alice" true) sysF.log = [0] := by
  have hgap : gapsBelowDelay (keyTimes demoActions) := by
    simp [gapsBelowDelay, demoActions, keyTimes, TypingDelay, Second]
  obtain ⟨sysF, hrun, -, -⟩ := runView_eq_some demo_runView
  refine ⟨hgap, sysF, hrun, ?_⟩
  have h := (single_start scanRoster scanRoster_frame aliceSession demoData 0
    ⟨1, "Alice", false, 0⟩ demoSystem sysF demoActions demo_focus rfl (by decide)
    (by
      intro a ha
      simp only [demoActions, List.mem_cons, List.mem_singleton, List.not_mem_nil,
        or_false] at ha
      rcases ha with rfl | rfl | rfl | rfl | rfl | rfl
      · exact ⟨rfl, rfl⟩
      · exact ⟨rfl, rfl⟩
      · exact ⟨rfl, rfl⟩
      · trivial
      · trivial
      · trivial)
    (by decide) hgap hrun).1
  exact h

/-- C5 (single stop): one participant, located, eligible, with a display name
that is not empty, on a table that stays registered. Take an execution whose
last keystroke is handled at time `aN` and in which afterwards only
reconciliations run, each no earlier than `TypingDelay` after the keystroke that
started it, until none is outstanding. After the last keystroke exactly one
notification is emitted, a stop notification for the participant, at a time
`r ≥ aN + TypingDelay`, and the participant ends with `Typing = false`. When the
flag was clear at the start and the gaps between the keystrokes are below
`TypingDelay`, this is the only stop notification of the whole execution. -/
theorem single_stop (R : Roster) (hR : R.Frame) (s : Session) (d : CommandData)
    (t : TableRef) (p : Participant) (sys0 sysF : System) (pre post : List Action) (aN : Int)
    (hf : Focus R s d t p sys0) (hname : p.Name ≠ "")
    (hlive : getTableAndLock sys0.srv (sys0.srv.heap t).ID false true = some t)
    (hpre : ∀ a ∈ pre, a.fromSession s d) (hpost : ∀ a ∈ post, a.isWake)
    (hrun : System.run R sys0 (pre ++ Action.keystroke aN s d :: post) = Except.ok sysF)
    (hdone : sysF.tasks = []) :
    ∃ sysK r, System.run R sys0 (pre ++ [Action.keystroke aN s d]) = Except.ok sysK ∧
      aN + TypingDelay ≤ r ∧
      sysF.log = sysK.log ++ [(r, Effect.NotifyChatTyping t p.Name false)] ∧
      (∃ q, locatedFor R (sysF.srv.heap t) s.UserID = some q ∧ q.Typing = false) ∧
      (p.Typing = false → gapsBelowDelay (keyTimes (pre ++ [Action.keystroke aN s d])) →
        timesOf (Effect.NotifyChatTyping t p.Name false) sysF.log =
          timesOf (Effect.NotifyChatTyping t p.Name false) sys0.log ++ [r]) := by
  have hsplit : pre ++ Action.keystroke aN s d :: post
      = (pre ++ [Action.keystroke aN s d]) ++ post := by simp
  rw [hsplit] at hrun
  obtain ⟨sysK, h1, h2⟩ := run_append_ok hrun
  obtain ⟨mid, h3, h4⟩ := run_append_ok h1
  obtain ⟨q, hq, hqn, htab, hid⟩ := focus_run hR hf hpre h3
  obtain ⟨sys1, hs, hr⟩ := run_cons_ok h4
  rw [← run_nil_ok hr] at hs
  obtain ⟨hfK, -, -, -, htasks, htab2, hid2⟩ := focus_keystroke hR hq hs
  have hliveK : getTableAndLock sysK.srv (sysK.srv.heap t).ID false true = some t := by
    unfold getTableAndLock at hlive ⊢
    rw [htab2, htab, hid2, hid]
    exact hlive
  have hmem : (⟨t, s.UserID, aN⟩ : Task) ∈ sysK.tasks := by
    rw [htasks]
    simp
  have hqname : q.Name ≠ "" := by
    rw [hqn]
    exact hname
  obtain ⟨r, hr1, hr2, hr3⟩ := post_single_stop hR hfK rfl rfl hqname hmem hliveK hpost h2 hdone
  have hlogF : sysF.log = sysK.log ++ [(r, Effect.NotifyChatTyping t p.Name false)] := by
    rw [hr2]
    show sysK.log ++ [(r, Effect.NotifyChatTyping t q.Name false)] = _
    rw [hqn]
  refine ⟨sysK, r, h1, hr1, hlogF, ⟨_, hr3.loc, rfl⟩, ?_⟩
  intro hidle hgap
  have h5 := (idle_run_one_start hR hf hidle hname hpre hgap h1).2
  rw [hlogF, timesOf_append, h5]
  simp [timesOf]

/-- Instance of C5, the scenario of the specification: keystrokes at 0, 0.5 and
1.0 seconds, reconciliations at 2.0, 2.5 and 3.0 seconds. The log has one start
at 0 and one stop at 3.0 seconds; the reconciliations at 2.0 and 2.5 seconds
emitted nothing. -/
theorem single_stop_witness :
    System.runView scanRoster demoSystem demoActions =
      some ([(0, Effect.NotifyChatTyping 0 "Alice" true), (0, Effect.Go 0 1),
             (500000000, Effect.Go 0 1), (1000000000, Effect.Go 0 1),
             (3000000000, Effect.NotifyChatTyping 0 "Alice" false)], []) ∧
    ∃ sysF sysK r, System.run scanRoster demoSystem demoActions = Except.ok sysF ∧
      System.run scanRoster demoSystem (demoActions.take 3) = Except.ok sysK ∧
      (1000000000 : Int) + TypingDelay ≤ r ∧
      sysF.log = sysK.log ++ [(r, Effect.NotifyChatTyping 0 "Alice" false)] ∧
      (∃ q, locatedFor scanRoster (sysF.srv.heap 0) 1 = some q ∧ q.Typing = false) ∧
      timesOf (Effect.NotifyChatTyping 0 "Alice" false) sysF.log = [r] := by
  refine ⟨demo_runView, ?_⟩
  obtain ⟨sysF, hrun, -, htasks⟩ := runView_eq_some demo_runView
  have hgap : gapsBelowDelay (keyTimes (demoActions.take 3)) := by
    simp [gapsBelowDelay, demoActions, keyTimes, TypingDelay, Second]
  obtain ⟨sysK, r, h1, h2, h3, h4, h5⟩ := single_stop scanRoster scanRoster_frame aliceSession
    demoData 0 ⟨1, "Alice", false, 0⟩ demoSystem sysF
    [Action.keystroke 0 aliceSession demoData, Action.keystroke 500000000 aliceSession demoData]
    [Action.wake 0 2000000000, Action.wake 0 2500000000, Action.wake 0 3000000000]
    1000000000 demo_focus (by decide) rfl
    (by
      intro a ha
      simp only [List.mem_cons, List.mem_singleton, List.not_mem_nil, or_false] at ha
      rcases ha with rfl | rfl <;> exact ⟨rfl, rfl⟩)
    (by
      intro a ha
      simp only [List.mem_cons, List.mem_singleton, List.not_mem_nil, or_false] at ha
      rcases ha with rfl | rfl | rfl <;> trivial)
    hrun htasks
  exact ⟨sysF, sysK, r, hrun, h1, h2, h3, h4, h5 rfl hgap⟩

/-! ## Any participants: what a step can do to a table -/

theorem sameRoster_refl (tbl : Table) : tbl.sameRoster tbl := ⟨rfl, rfl, rfl, rfl⟩

theorem touched_sameRoster {now : Int} {tbl tbl1 : Table} (h : tbl.touched now tbl1) :
    tbl1.sameRoster tbl := by
  rcases h with rfl | ⟨pi, si, p, q, hloc, hq, -, rfl⟩
  · exact sameRoster_refl _
  · exact sameRoster_setLocated q hloc hq

theorem store_heap_other (srv : Server) {t t1 : TableRef} (tbl : Table) (h : t1 ≠ t) :
    (srv.store t tbl).heap t1 = srv.heap t1 := by
  simp [Server.store, Function.update, h]

theorem store_touched (srv : Server) (t : TableRef) {now : Int} {tbl1 : Table}
    (h : (srv.heap t).touched now tbl1) (t1 : TableRef) :
    (srv.heap t1).touched now ((srv.store t tbl1).heap t1) := by
  by_cases ht : t1 = t
  · subst ht
    rw [store_heap_self]
    exact h
  · rw [store_heap_other srv tbl1 ht]
    exact Or.inl rfl

/-- When no record is located, `chatTyping` either panics or changes nothing. -/
theorem chatTyping_of_located_none {now : Int} {srv srv1 : Server} {s : Session}
    {t : TableRef} {pi si : Int} {es : List Effect}
    (hloc : located (srv.heap t) pi si = none)
    (h : chatTyping now srv s t pi si = some (srv1, es)) : srv1 = srv := by
  unfold located at hloc
  unfold chatTyping at h
  by_cases hs : si ≠ -1
  · rw [if_pos hs] at hloc
    simp [hs, hloc] at h
  · rw [if_neg hs] at hloc
    by_cases hp : pi ≠ -1
    · rw [if_pos hp] at hloc
      simp [hs, hp, hloc] at h
    · simp [hs, hp] at h
      exact h.1.symm

/-- When no record is located, lines 101 to 126 either panic or do nothing. -/
theorem checkStoppedLocated_of_located_none {now : Int} {srv srv1 : Server}
    {t : TableRef} {pi si : Int} {es : List Effect}
    (hloc : located (srv.heap t) pi si = none)
    (h : chatTypingCheckStoppedLocated now srv t pi si = some (srv1, es)) :
    srv1 = srv ∧ es = [] := by
  unfold located at hloc
  unfold chatTypingCheckStoppedLocated at h
  by_cases hs : si ≠ -1
  · rw [if_pos hs] at hloc
    simp [hs, hloc] at h
  · rw [if_neg hs] at hloc
    by_cases hp : pi ≠ -1
    · rw [if_pos hp] at hloc
      simp [hs, hp, hloc] at h
    · simp [hs, hp, notifyIfNamed_empty] at h
      exact ⟨h.1.symm, h.2⟩

theorem chatTyping_touch {now : Int} {srv srv1 : Server} {s : Session} {t : TableRef}
    {pi si : Int} {es : List Effect}
    (h : chatTyping now srv s t pi si = some (srv1, es)) :
    srv1.tables = srv.tables ∧ ∀ t1, (srv.heap t1).touched now (srv1.heap t1) := by
  cases hloc : located (srv.heap t) pi si with
  | none =>
    rw [chatTyping_of_located_none hloc h]
    exact ⟨rfl, fun _ => Or.inl rfl⟩
  | some p =>
    rw [chatTyping_of_located hloc] at h
    obtain ⟨rfl, -⟩ := Prod.mk.inj (Option.some.inj h)
    exact ⟨rfl, store_touched srv t (Or.inr ⟨pi, si, p,
      { p with Typing := true, LastTyped := now }, hloc, rfl, fun _ => rfl, rfl⟩)⟩

theorem commandChatTyping_touch {R : Roster} {now : Int} {srv srv1 : Server} {s : Session}
    {d : CommandData} {es : List Effect}
    (h : commandChatTyping R now srv s d = some (srv1, es)) :
    srv1.tables = srv.tables ∧ ∀ t1, (srv.heap t1).touched now (srv1.heap t1) := by
  cases hreg : getTableAndLock srv d.TableID (!d.NoTableLock) (!d.NoTablesLock) with
  | none =>
    unfold commandChatTyping at h
    rw [hreg] at h
    obtain ⟨rfl, -⟩ := Prod.mk.inj (Option.some.inj h)
    exact ⟨rfl, fun _ => Or.inl rfl⟩
  | some t =>
    cases helig : eligible R (srv.heap t) s.UserID
    · obtain ⟨msg, h2⟩ := commandChatTyping_of_ineligible now hreg helig
      rw [h2] at h
      obtain ⟨rfl, -⟩ := Prod.mk.inj (Option.some.inj h)
      exact ⟨rfl, fun _ => Or.inl rfl⟩
    · rw [commandChatTyping_of_eligible now hreg helig] at h
      exact chatTyping_touch h

/-- The outcome of a reconciliation, whoever it is for: nothing changes and
nothing is emitted, or the user is eligible, the record is located with the flag
set and at least `TypingDelay` elapsed, and the flag is cleared. -/
theorem checkStopped_outcome {R : Roster} {now : Int} {srv srv1 : Server} {t : TableRef}
    {u : Int} {es : List Effect}
    (h : chatTypingCheckStopped R now srv t u = some (srv1, es)) :
    (srv1 = srv ∧ es = []) ∨
    ∃ p, eligible R (srv.heap t) u = true ∧ locatedFor R (srv.heap t) u = some p ∧
      p.Typing = true ∧ TypingDelay ≤ now - p.LastTyped ∧
      srv1 = srv.store t ((srv.heap t).setLocated (R.GetPlayerIndexFromID (srv.heap t) u)
        (R.GetSpectatorIndexFromID (srv.heap t) u) { p with Typing := false }) ∧
      es = notifyIfNamed t p.Name false := by
  by_cases hreg : getTableAndLock srv (srv.heap t).ID false true = some t
  · cases helig : eligible R (srv.heap t) u
    · rw [checkStopped_of_ineligible now helig] at h
      obtain ⟨rfl, rfl⟩ := Prod.mk.inj (Option.some.inj h)
      exact Or.inl ⟨rfl, rfl⟩
    · rw [checkStopped_of_eligible now hreg helig] at h
      cases hloc : locatedFor R (srv.heap t) u with
      | none => exact Or.inl (checkStoppedLocated_of_located_none hloc h)
      | some p =>
        rw [checkStoppedLocated_of_located hloc] at h
        by_cases hc : p.Typing = true ∧ TypingDelay ≤ now - p.LastTyped
        · rw [if_pos hc] at h
          obtain ⟨rfl, rfl⟩ := Prod.mk.inj (Option.some.inj h)
          exact Or.inr ⟨p, rfl, rfl, hc.1, hc.2, rfl, rfl⟩
        · rw [if_neg hc] at h
          obtain ⟨rfl, rfl⟩ := Prod.mk.inj (Option.some.inj h)
          exact Or.inl ⟨rfl, rfl⟩
  · rw [checkStopped_of_unregistered now u hreg] at h
    obtain ⟨rfl, rfl⟩ := Prod.mk.inj (Option.some.inj h)
    exact Or.inl ⟨rfl, rfl⟩

theorem checkStopped_touch {R : Roster} {now : Int} {srv srv1 : Server} {t : TableRef}
    {u : Int} {es : List Effect}
    (h : chatTypingCheckStopped R now srv t u = some (srv1, es)) :
    srv1.tables = srv.tables ∧ ∀ t1, (srv.heap t1).touched now (srv1.heap t1) := by
  rcases checkStopped_outcome h with ⟨rfl, -⟩ | ⟨p, -, hloc, -, -, rfl, -⟩
  · exact ⟨rfl, fun _ => Or.inl rfl⟩
  · refine ⟨rfl, store_touched srv t
      (Or.inr ⟨_, _, p, { p with Typing := false }, hloc, rfl, ?_, rfl⟩)⟩
    intro hq
    cases hq

/-- Every step leaves the registry alone and touches each table at most in one
located record. -/
theorem step_touch {R : Roster} {sys sys1 : System} {a : Action}
    (h : sys.step R a = Except.ok sys1) :
    sys.clock ≤ sys1.clock ∧ sys1.srv.tables = sys.srv.tables ∧
    ∀ t1, (sys.srv.heap t1).touched sys1.clock (sys1.srv.heap t1) := by
  cases a with
  | keystroke now s d =>
    obtain ⟨hc, srv1, es, hcmd, rfl⟩ := step_keystroke_ok h
    obtain ⟨h1, h2⟩ := commandChatTyping_touch hcmd
    exact ⟨hc, h1, h2⟩
  | wake i now =>
    obtain ⟨hc, k, srv1, es, -, -, hcs, rfl⟩ := step_wake_ok h
    obtain ⟨h1, h2⟩ := checkStopped_touch hcs
    exact ⟨hc, h1, h2⟩

theorem index_set_cases {α : Type} {xs : List α} {i j : Int} {q x : α}
    (h : index (xs.set i.toNat q) j = some x) (hi : 0 ≤ i) :
    (i = j ∧ x = q) ∨ index xs j = some x := by
  unfold index at h ⊢
  by_cases hj : 0 ≤ j
  · rw [if_pos hj] at h ⊢
    by_cases hij : i.toNat = j.toNat
    · left
      have hlt : j.toNat < (xs.set i.toNat q).length := (List.getElem?_eq_some.mp h).1
      rw [hij] at h
      rw [List.length_set] at hlt
      rw [List.getElem?_set_self hlt] at h
      exact ⟨by omega, (Option.some.inj h).symm⟩
    · right
      rw [List.getElem?_set_ne hij] at h
      exact h
  · rw [if_neg hj] at h
    cases h

/-- After one located record was replaced, a located record is the new record
or a record that was located before. -/
theorem located_after_setLocated {tbl : Table} {pi si pi1 si1 : Int} {p q x : Participant}
    (hloc : located tbl pi si = some p)
    (h : located (tbl.setLocated pi si q) pi1 si1 = some x) :
    x = q ∨ located tbl pi1 si1 = some x := by
  rcases located_cases hloc with ⟨hs, h1⟩ | ⟨hs, hp, h1⟩
  · rw [setLocated_spectator hs] at h
    rcases located_cases h with ⟨hs1, h2⟩ | ⟨hs1, hp1, h2⟩
    · rcases index_set_cases h2 (index_eq_some h1).1 with ⟨-, hx⟩ | h3
      · exact Or.inl hx
      · right
        unfold located
        rw [if_pos hs1]
        exact h3
    · right
      unfold located
      rw [if_neg (by simpa using hs1), if_pos hp1]
      exact h2
  · subst hs
    rw [setLocated_player hp] at h
    rcases located_cases h with ⟨hs1, h2⟩ | ⟨hs1, hp1, h2⟩
    · right
      unfold located
      rw [if_pos hs1]
      exact h2
    · rcases index_set_cases h2 (index_eq_some h1).1 with ⟨-, hx⟩ | h3
      · exact Or.inl hx
      · right
        unfold located
        rw [if_neg (by simpa using hs1), if_pos hp1]
        exact h3

/-! ## Any participants: keystrokes bound `LastTyped` from below -/

theorem keyBound_step {R : Roster} (hR : R.Frame) {t : TableRef} {u k : Int}
    {sys sys1 : System} {a : Action} (h : sys.step R a = Except.ok sys1)
    (hb : keyBound R t u k sys) : keyBound R t u k sys1 := by
  obtain ⟨hc, -, htouch⟩ := step_touch h
  have ht := htouch t
  have hsame := touched_sameRoster ht
  refine ⟨le_trans hb.1 hc, ?_⟩
  intro helig p hloc hT
  rw [eligible_congr hR hsame] at helig
  unfold locatedFor at hloc
  rw [hR.playerIndex _ _ _ hsame, hR.spectatorIndex _ _ _ hsame] at hloc
  rcases ht with heq | ⟨pi, si, p0, q, hloc0, -, hq, heq⟩
  · rw [heq] at hloc
    exact hb.2 helig p hloc hT
  · rw [heq] at hloc
    rcases located_after_setLocated hloc0 hloc with rfl | hold
    · rw [hq hT]
      exact le_trans hb.1 hc
    · exact hb.2 helig p hold hT

theorem keyBound_keystroke {R : Roster} (hR : R.Frame) {t : TableRef} {sys sys1 : System}
    {now : Int} {s : Session} {d : CommandData}
    (h : sys.step R (Action.keystroke now s d) = Except.ok sys1)
    (hreg : getTableAndLock sys.srv d.TableID (!d.NoTableLock) (!d.NoTablesLock) = some t) :
    keyBound R t s.UserID now sys1 := by
  obtain ⟨-, -, htouch⟩ := step_touch h
  have hsame := touched_sameRoster (htouch t)
  obtain ⟨-, srv1, es, hcmd, rfl⟩ := step_keystroke_ok h
  refine ⟨le_refl _, ?_⟩
  intro helig p hloc hT
  rw [eligible_congr hR hsame] at helig
  rw [commandChatTyping_of_eligible now hreg helig] at hcmd
  cases hloc0 : locatedFor R (sys.srv.heap t) s.UserID with
  | none =>
    have hsrv := chatTyping_of_located_none hloc0 hcmd
    simp only [] at hloc
    rw [hsrv, hloc0] at hloc
    cases hloc
  | some p0 =>
    rw [chatTyping_of_located hloc0] at hcmd
    obtain ⟨rfl, -⟩ := Prod.mk.inj (Option.some.inj hcmd)
    obtain ⟨-, h2, -⟩ := scene_store hR { p0 with Typing := true, LastTyped := now }
      (⟨hreg, helig⟩ : Scene R s d t sys.srv) hloc0 rfl
    simp only [] at hloc
    rw [h2] at hloc
    obtain rfl := Option.some.inj hloc
    exact le_refl _

theorem run_keyBound {R : Roster} (hR : R.Frame) {t : TableRef} {u k : Int}
    {acts : List Action} {sys sysF : System} (h : System.run R sys acts = Except.ok sysF)
    (hb : keyBound R t u k sys) : keyBound R t u k sysF := by
  induction acts generalizing sys with
  | nil =>
    rw [run_nil_ok h]
    exact hb
  | cons a rest ih =>
    obtain ⟨sys1, hs, hr⟩ := run_cons_ok h
    exact ih hr (keyBound_step hR hs hb)

theorem run_tables {R : Roster} {acts : List Action} {sys sysF : System}
    (h : System.run R sys acts = Except.ok sysF) : sysF.srv.tables = sys.srv.tables := by
  induction acts generalizing sys with
  | nil => rw [run_nil_ok h]
  | cons a rest ih =>
    obtain ⟨sys1, hs, hr⟩ := run_cons_ok h
    rw [ih hr, (step_touch hs).2.1]

/-- Every keystroke of an execution that resolves to table `t` is accounted for
at the end of the execution. -/
theorem keyBound_of_mem {R : Roster} (hR : R.Frame) {t : TableRef} {acts : List Action}
    {sys sysF : System} {now : Int} {s : Session} {d : CommandData}
    (h : System.run R sys acts = Except.ok sysF)
    (hmem : Action.keystroke now s d ∈ acts)
    (hreg : getTableAndLock sys.srv d.TableID (!d.NoTableLock) (!d.NoTablesLock) = some t) :
    keyBound R t s.UserID now sysF := by
  obtain ⟨l1, l2, rfl⟩ := List.append_of_mem hmem
  obtain ⟨mid, h1, h2⟩ := run_append_ok h
  obtain ⟨sys1, hs, hr⟩ := run_cons_ok h2
  have hreg1 : getTableAndLock mid.srv d.TableID (!d.NoTableLock) (!d.NoTablesLock) = some t := by
    unfold getTableAndLock at hreg ⊢
    rw [run_tables h1]
    exact hreg
  exact run_keyBound hR hr (keyBound_keystroke hR hs hreg1)

/-- C6 (debounce refresh): take any execution, with keystrokes of any users on
any tables and runs of any reconciliations, whose last step is the run at time
`r` of a reconciliation for user `k.userID` on table `k.table` that emits a stop
notification. Then `r` is at least `TypingDelay` after every earlier keystroke
of that user on that table, hence after the most recent one. In particular,
after keystrokes at `t0` and `t0 + (TypingDelay - eps)` no stop notification is
emitted before `t0 + 2 * TypingDelay - eps`. -/
theorem stop_not_before_delay (R : Roster) (hR : R.Frame) (sys0 sysM sysF : System)
    (acts : List Action) (i : Nat) (r : Int) (k : Task) (name : String)
    (hrun : System.run R sys0 acts = Except.ok sysM)
    (hk : sysM.tasks[i]? = some k)
    (hstep : sysM.step R (Action.wake i r) = Except.ok sysF)
    (hstop : sysF.log = sysM.log ++ [(r, Effect.NotifyChatTyping k.table name false)]) :
    (∀ now s d, Action.keystroke now s d ∈ acts → s.UserID = k.userID →
      getTableAndLock sys0.srv d.TableID (!d.NoTableLock) (!d.NoTablesLock) = some k.table →
      now + TypingDelay ≤ r) ∧
    (∀ t0 eps s d, 0 < eps → eps ≤ TypingDelay →
      Action.keystroke t0 s d ∈ acts →
      Action.keystroke (t0 + (TypingDelay - eps)) s d ∈ acts →
      s.UserID = k.userID →
      getTableAndLock sys0.srv d.TableID (!d.NoTableLock) (!d.NoTablesLock) = some k.table →
      t0 + 2 * TypingDelay - eps ≤ r) := by
  have main : ∀ now s d, Action.keystroke now s d ∈ acts → s.UserID = k.userID →
      getTableAndLock sys0.srv d.TableID (!d.NoTableLock) (!d.NoTablesLock) = some k.table →
      now + TypingDelay ≤ r := by
    intro now s d hmem hu hreg
    have hb := keyBound_of_mem hR hrun hmem hreg
    obtain ⟨-, k1, srv1, es, hk1, -, hcs, rfl⟩ := step_wake_ok hstep
    rw [hk] at hk1
    obtain rfl := Option.some.inj hk1
    simp only [List.append_cancel_left_eq] at hstop
    rcases checkStopped_outcome hcs with ⟨-, rfl⟩ | ⟨p, helig, hloc, hT, hlate, -, -⟩
    · simp [stamp] at hstop
    · rw [hu] at hb
      have := hb.2 helig p hloc hT
      omega
  refine ⟨main, ?_⟩
  intro t0 eps s d _ _ _ h2 hu hreg
  have := main _ s d h2 hu hreg
  omega

theorem refresh_runView :
    System.runView scanRoster demoSystem refreshActions =
      some ([(0, Effect.NotifyChatTyping 0 "Alice" true), (0, Effect.Go 0 1),
             (1500000000, Effect.Go 0 1),
             (1600000000, Effect.NotifyChatTyping 0 "Bob" true), (1600000000, Effect.Go 0 2)],
            [⟨0, 1, 1500000000⟩, ⟨0, 2, 1600000000⟩]) := by
  rfl

/-- Instance of C6: Alice types at 0 and 1.5 seconds (`eps` is 0.5 seconds) and
Bob types in between; the reconciliation that runs at 2.0 seconds emits nothing
and the one that runs at 3.5 seconds emits the stop notification for Alice. -/
theorem stop_not_before_delay_witness :
    System.runView scanRoster demoSystem (refreshActions ++ [Action.wake 0 3500000000]) =
      some ([(0, Effect.NotifyChatTyping 0 "Alice" true), (0, Effect.Go 0 1),
             (1500000000, Effect.Go 0 1),
             (1600000000, Effect.NotifyChatTyping 0 "Bob" true), (1600000000, Effect.Go 0 2),
             (3500000000, Effect.NotifyChatTyping 0 "Alice" false)],
            [⟨0, 2, 1600000000⟩]) ∧
    (1500000000 : Int) + TypingDelay ≤ 3500000000 ∧
    (0 : Int) + 2 * TypingDelay - 500000000 ≤ 3500000000 := by
  have hv2 : System.runView scanRoster demoSystem
      (refreshActions ++ [Action.wake 0 3500000000]) =
      some ([(0, Effect.NotifyChatTyping 0 "Alice" true), (0, Effect.Go 0 1),
             (1500000000, Effect.Go 0 1),
             (1600000000, Effect.NotifyChatTyping 0 "Bob" true), (1600000000, Effect.Go 0 2),
             (3500000000, Effect.NotifyChatTyping 0 "Alice" false)],
            [⟨0, 2, 1600000000⟩]) := by
    rfl
  obtain ⟨sysM, hrunM, hlogM, htasksM⟩ := runView_eq_some refresh_runView
  obtain ⟨sysF, hrunF, hlogF, -⟩ := runView_eq_some hv2
  obtain ⟨mid, h1, h2⟩ := run_append_ok hrunF
  rw [hrunM] at h1
  obtain rfl := Except.ok.inj h1
  obtain ⟨sys1, hs, hr⟩ := run_cons_ok h2
  rw [← run_nil_ok hr] at hs
  have hk : sysM.tasks[0]? = some ⟨0, 1, 1500000000⟩ := by
    rw [htasksM]
    rfl
  have hstop : sysF.log = sysM.log ++ [(3500000000, Effect.NotifyChatTyping 0 "Alice" false)] := by
    rw [hlogF, hlogM]
    rfl
  have h := stop_not_before_delay scanRoster scanRoster_frame demoSystem sysM sysF
    refreshActions 0 3500000000 ⟨0, 1, 1500000000⟩ "Alice" hrunM hk hs hstop
  refine ⟨hv2, ?_, ?_⟩
  · exact h.1 1500000000 aliceSession demoData (by decide) rfl rfl
  · exact h.2 0 500000000 aliceSession demoData (by decide) (by decide) (by decide) (by decide)
      rfl rfl

/-! ## Spectator precedence, scheduling and safety of one operation -/

theorem located_of_spectator {tbl : Table} (pi : Int) {si : Int} {sp : Participant}
    (hs : si ≠ -1) (hsp : index tbl.Spectators si = some sp) :
    located tbl pi si = some sp := by
  unfold located
  rw [if_pos hs]
  exact hsp

theorem setSpectator_players (tbl : Table) (i : Int) (q : Participant) :
    (tbl.setSpectator i q).Players = tbl.Players := rfl

theorem setSpectator_index {tbl : Table} {i : Int} {sp : Participant} (q : Participant)
    (h : index tbl.Spectators i = some sp) :
    index (tbl.setSpectator i q).Spectators i = some q :=
  index_set_self q h

theorem scheduled_append (xs ys : List Effect) :
    scheduled (xs ++ ys) = scheduled xs ++ scheduled ys := by
  induction xs with
  | nil => rfl
  | cons e rest ih => cases e <;> simp [scheduled, ih]

theorem scheduled_notifyIfNamed (t : TableRef) (name : String) (b : Bool) :
    scheduled (notifyIfNamed t name b) = [] := by
  unfold notifyIfNamed
  split_ifs <;> rfl

/-- With indices that are -1 or positions, either a record is located or both
indices are -1. -/
theorem located_or_absent {tbl : Table} {pi si : Int}
    (hp : validIndex tbl.Players pi) (hs : validIndex tbl.Spectators si) :
    (∃ p, located tbl pi si = some p) ∨ (pi = -1 ∧ si = -1) := by
  unfold located
  by_cases h1 : si ≠ -1
  · rw [if_pos h1]
    rcases hs with hs | ⟨a, ha⟩
    · exact absurd hs h1
    · exact Or.inl ⟨a, ha⟩
  · rw [if_neg h1]
    by_cases h2 : pi ≠ -1
    · rw [if_pos h2]
      rcases hp with hp | ⟨a, ha⟩
      · exact absurd hp h2
      · exact Or.inl ⟨a, ha⟩
    · exact Or.inr ⟨not_not.mp h2, not_not.mp h1⟩

/-- With indices that are -1 or positions, `chatTyping` returns, and its effects
end with the start of one goroutine for the table and the user of the session. -/
theorem chatTyping_returns (now : Int) {srv : Server} (s : Session) {t : TableRef}
    {pi si : Int} (hp : validIndex (srv.heap t).Players pi)
    (hs : validIndex (srv.heap t).Spectators si) :
    ∃ srv1 es0, chatTyping now srv s t pi si = some (srv1, es0 ++ [Effect.Go t s.UserID]) ∧
      scheduled es0 = [] ∧ spawn now es0 = [] := by
  rcases located_or_absent hp hs with ⟨p, hloc⟩ | ⟨rfl, rfl⟩
  · exact ⟨_, _, chatTyping_of_located hloc, scheduled_notifyIfNamed _ _ _,
      spawn_notifyIfNamed _ _ _ _⟩
  · exact ⟨srv, [], chatTyping_of_not_located now srv s t, rfl, rfl⟩

/-- With indices that are -1 or positions, lines 101 to 126 return. -/
theorem checkStoppedLocated_returns {now : Int} {srv : Server} {t : TableRef}
    {pi si : Int} (hp : validIndex (srv.heap t).Players pi)
    (hs : validIndex (srv.heap t).Spectators si) :
    ∃ r, chatTypingCheckStoppedLocated now srv t pi si = some r := by
  rcases located_or_absent hp hs with ⟨p, hloc⟩ | ⟨rfl, rfl⟩
  · rw [checkStoppedLocated_of_located hloc]
    split_ifs
    · exact ⟨_, rfl⟩
    · exact ⟨_, rfl⟩
  · exact ⟨_, checkStoppedLocated_of_not_located now srv t⟩

theorem checkStopped_returns (R : Roster) (now : Int) (srv : Server) (t : TableRef)
    (u : Int)
    (hp : validIndex (srv.heap t).Players (R.GetPlayerIndexFromID (srv.heap t) u))
    (hs : validIndex (srv.heap t).Spectators (R.GetSpectatorIndexFromID (srv.heap t) u)) :
    ∃ r, chatTypingCheckStopped R now srv t u = some r := by
  by_cases hreg : getTableAndLock srv (srv.heap t).ID false true = some t
  · cases helig : eligible R (srv.heap t) u
    · exact ⟨_, checkStopped_of_ineligible now helig⟩
    · rw [checkStopped_of_eligible now hreg helig]
      exact checkStoppedLocated_returns hp hs
  · exact ⟨_, checkStopped_of_unregistered now u hreg⟩

theorem commandChatTyping_returns {R : Roster} (hR : R.InRange) (now : Int) (srv : Server)
    (s : Session) (d : CommandData) :
    ∃ r, commandChatTyping R now srv s d = some r := by
  cases hreg : getTableAndLock srv d.TableID (!d.NoTableLock) (!d.NoTablesLock) with
  | none =>
    unfold commandChatTyping
    rw [hreg]
    exact ⟨_, rfl⟩
  | some t =>
    cases helig : eligible R (srv.heap t) s.UserID
    · obtain ⟨msg, h⟩ := commandChatTyping_of_ineligible now hreg helig
      exact ⟨_, h⟩
    · rw [commandChatTyping_of_eligible now hreg helig]
      obtain ⟨srv1, es0, h, -⟩ := chatTyping_returns now s
        (hR.player (srv.heap t) s.UserID) (hR.spectator (srv.heap t) s.UserID)
      exact ⟨_, h⟩

theorem withPlayers_heap (srv : Server) (t : TableRef) (players : List Participant) :
    (srv.withPlayers t players).heap t = { srv.heap t with Players := players } := by
  unfold Server.withPlayers
  rw [store_heap_self]

theorem step_no_panic {R : Roster} (hR : R.InRange) (sys : System) (a : Action) :
    sys.step R a ≠ Except.error Fault.panic := by
  intro h
  cases a with
  | keystroke now s d =>
    simp only [System.step] at h
    obtain ⟨r, hr⟩ := commandChatTyping_returns hR now sys.srv s d
    rw [hr] at h
    by_cases hc : now < sys.clock
    · rw [if_pos hc] at h
      cases h
    · rw [if_neg hc] at h
      cases h
  | wake i now =>
    simp only [System.step] at h
    by_cases hc : now < sys.clock
    · rw [if_pos hc] at h
      cases h
    · rw [if_neg hc] at h
      cases hk : sys.tasks[i]? with
      | none => rw [hk] at h; cases h
      | some k =>
        rw [hk] at h
        simp only [] at h
        obtain ⟨r, hr⟩ := checkStopped_returns R now sys.srv k.table k.userID
          (hR.player _ _) (hR.spectator _ _)
        rw [hr] at h
        by_cases hready : (!k.ready now) = true
        · rw [if_pos hready] at h
          cases h
        · rw [if_neg hready] at h
          cases h

/-- C11 (spectator precedence): for an eligible user with a spectator index and
a player index that are both positions of records, on a table that is still
registered. `chatTyping` and `chatTypingCheckStopped` return; the list of
players is unchanged; the spectator record gets the new field values; whether a
notification is emitted is decided by the spectator record alone, and the
notification carries the name of the spectator record. Replacing the list of
players by any other list changes none of the effects. -/
theorem spectator_precedence (R : Roster) (now : Int) (srv : Server) (s : Session)
    (t : TableRef) (sp pl : Participant)
    (hreg : getTableAndLock srv (srv.heap t).ID false true = some t)
    (helig : eligible R (srv.heap t) s.UserID = true)
    (hs : R.GetSpectatorIndexFromID (srv.heap t) s.UserID ≠ -1)
    (hsp : index (srv.heap t).Spectators (R.GetSpectatorIndexFromID (srv.heap t) s.UserID)
      = some sp)
    (_hp : R.GetPlayerIndexFromID (srv.heap t) s.UserID ≠ -1)
    (hpl : index (srv.heap t).Players (R.GetPlayerIndexFromID (srv.heap t) s.UserID)
      = some pl) :
    (∃ srv1 es,
      chatTyping now srv s t (R.GetPlayerIndexFromID (srv.heap t) s.UserID)
        (R.GetSpectatorIndexFromID (srv.heap t) s.UserID) = some (srv1, es) ∧
      (srv1.heap t).Players = (srv.heap t).Players ∧
      index (srv1.heap t).Players (R.GetPlayerIndexFromID (srv.heap t) s.UserID) = some pl ∧
      index (srv1.heap t).Spectators (R.GetSpectatorIndexFromID (srv.heap t) s.UserID)
        = some { sp with Typing := true, LastTyped := now } ∧
      notifications es = if sp.Typing = false ∧ sp.Name ≠ "" then [(sp.Name, true)] else []) ∧
    (∃ srv1 es,
      chatTypingCheckStopped R now srv t s.UserID = some (srv1, es) ∧
      (srv1.heap t).Players = (srv.heap t).Players ∧
      index (srv1.heap t).Players (R.GetPlayerIndexFromID (srv.heap t) s.UserID) = some pl ∧
      index (srv1.heap t).Spectators (R.GetSpectatorIndexFromID (srv.heap t) s.UserID)
        = some (if sp.Typing = true ∧ TypingDelay ≤ now - sp.LastTyped
            then { sp with Typing := false } else sp) ∧
      notifications es =
        if sp.Typing = true ∧ TypingDelay ≤ now - sp.LastTyped ∧ sp.Name ≠ ""
          then [(sp.Name, false)] else []) ∧
    (∀ players : List Participant,
      (chatTyping now (srv.withPlayers t players) s t
          (R.GetPlayerIndexFromID (srv.heap t) s.UserID)
          (R.GetSpectatorIndexFromID (srv.heap t) s.UserID)).map (fun r => r.2) =
        (chatTyping now srv s t (R.GetPlayerIndexFromID (srv.heap t) s.UserID)
          (R.GetSpectatorIndexFromID (srv.heap t) s.UserID)).map (fun r => r.2) ∧
      (chatTypingCheckStoppedLocated now (srv.withPlayers t players) t
          (R.GetPlayerIndexFromID (srv.heap t) s.UserID)
          (R.GetSpectatorIndexFromID (srv.heap t) s.UserID)).map (fun r => r.2) =
        (chatTypingCheckStoppedLocated now srv t (R.GetPlayerIndexFromID (srv.heap t) s.UserID)
          (R.GetSpectatorIndexFromID (srv.heap t) s.UserID)).map (fun r => r.2)) := by
  have hloc := located_of_spectator (R.GetPlayerIndexFromID (srv.heap t) s.UserID) hs hsp
  refine ⟨?_, ?_, ?_⟩
  · refine ⟨_, _, chatTyping_of_located hloc, ?_, ?_, ?_, ?_⟩
    · rw [store_heap_self, setLocated_spectator hs]
      rfl
    · rw [store_heap_self, setLocated_spectator hs]
      exact hpl
    · rw [store_heap_self, setLocated_spectator hs]
      exact setSpectator_index _ hsp
    · rw [notifications_append, notifications_notifyIfNamed]
      cases hT : sp.Typing <;> by_cases hn : sp.Name = "" <;> simp [hn, notifications]
  · rw [checkStopped_of_eligible now hreg helig, checkStoppedLocated_of_located hloc]
    by_cases hc : sp.Typing = true ∧ TypingDelay ≤ now - sp.LastTyped
    · rw [if_pos hc]
      refine ⟨_, _, rfl, ?_, ?_, ?_, ?_⟩
      · rw [store_heap_self, setLocated_spectator hs]
        rfl
      · rw [store_heap_self, setLocated_spectator hs]
        exact hpl
      · rw [store_heap_self, setLocated_spectator hs, if_pos hc]
        exact setSpectator_index _ hsp
      · rw [notifications_notifyIfNamed]
        by_cases hn : sp.Name = "" <;> simp [hn, hc.1, hc.2]
    · rw [if_neg hc]
      refine ⟨_, _, rfl, rfl, hpl, ?_, ?_⟩
      · rw [if_neg hc]
        exact hsp
      · have : ¬ (sp.Typing = true ∧ TypingDelay ≤ now - sp.LastTyped ∧ sp.Name ≠ "") :=
          fun h => hc ⟨h.1, h.2.1⟩
        rw [if_neg this]
        rfl
  · intro players
    have hloc2 : located ((srv.withPlayers t players).heap t)
        (R.GetPlayerIndexFromID (srv.heap t) s.UserID)
        (R.GetSpectatorIndexFromID (srv.heap t) s.UserID) = some sp := by
      rw [withPlayers_heap]
      exact located_of_spectator _ hs hsp
    rw [chatTyping_of_located hloc2, chatTyping_of_located hloc,
      checkStoppedLocated_of_located hloc2, checkStoppedLocated_of_located hloc]
    refine ⟨rfl, ?_⟩
    split_ifs <;> rfl

/-- Instance of C11: on `sharedReplayTable` user 1 has the player record Alice,
with the flag set, and the spectator record Alicia, with the flag clear. The
keystroke is announced under the name Alicia and the player record stays as it
is. -/
theorem spectator_precedence_witness :
    scanRoster.GetSpectatorIndexFromID (sharedReplayServer.heap 0) 1 = 0 ∧
    scanRoster.GetPlayerIndexFromID (sharedReplayServer.heap 0) 1 = 0 ∧
    eligible scanRoster (sharedReplayServer.heap 0) 1 = true ∧
    ∃ srv1 es, chatTyping 5000000000 sharedReplayServer ⟨1⟩ 0 0 0 = some (srv1, es) ∧
      (srv1.heap 0).Players = [⟨1, "Alice", true, 1000000000⟩] ∧
      index (srv1.heap 0).Spectators 0 = some ⟨1, "Alicia", true, 5000000000⟩ ∧
      notifications es = [("Alicia", true)] := by
  refine ⟨rfl, rfl, rfl, ?_⟩
  obtain ⟨⟨srv1, es, h1, h2, -, h3, h4⟩, -, -⟩ := spectator_precedence scanRoster 5000000000
    sharedReplayServer ⟨1⟩ 0 ⟨1, "Alicia", false, 0⟩ ⟨1, "Alice", true, 1000000000⟩
    rfl rfl (by decide) rfl (by decide) rfl
  refine ⟨srv1, es, h1, h2, h3, ?_⟩
  rw [h4]
  simp

/-- C13: with indices that are -1 or positions, every call of `chatTyping`
returns and starts exactly one goroutine, for the table reference it was given
and the user of the session, whatever the flag was and whether or not a
notification went out. `TypingDelay` is 2 seconds; in an execution the body of a
goroutine never runs before `TypingDelay` has passed since the keystroke that
started it; and the check clears a set flag exactly when at least `TypingDelay`
has elapsed since `LastTyped`. -/
theorem chatTyping_schedules_one (now : Int) (srv : Server) (s : Session) (t : TableRef)
    (pi si : Int) (hp : validIndex (srv.heap t).Players pi)
    (hs : validIndex (srv.heap t).Spectators si) :
    (∃ srv1 es, chatTyping now srv s t pi si = some (srv1, es) ∧
      scheduled es = [(t, s.UserID)] ∧ spawn now es = [⟨t, s.UserID, now⟩]) ∧
    TypingDelay = 2 * 1000000000 ∧
    (∀ (R : Roster) (sys sys1 : System) (i : Nat) (r : Int) (k : Task),
      sys.tasks[i]? = some k → sys.step R (Action.wake i r) = Except.ok sys1 →
      k.spawned + TypingDelay ≤ r) ∧
    (∀ (r : Int) (p : Participant), located (srv.heap t) pi si = some p → p.Typing = true →
      ∃ srv1 es, chatTypingCheckStoppedLocated r srv t pi si = some (srv1, es) ∧
        located (srv1.heap t) pi si =
          some (if TypingDelay ≤ r - p.LastTyped then { p with Typing := false } else p)) := by
  refine ⟨?_, rfl, ?_, ?_⟩
  · obtain ⟨srv1, es0, h, h1, h2⟩ := chatTyping_returns now s hp hs
    refine ⟨srv1, _, h, ?_, ?_⟩
    · rw [scheduled_append, h1]
      rfl
    · rw [spawn_append, h2]
      rfl
  · intro R sys sys1 i r k hk hstep
    obtain ⟨-, k1, -, -, hk1, hready, -, -⟩ := step_wake_ok hstep
    rw [hk] at hk1
    obtain rfl := Option.some.inj hk1
    exact hready
  · intro r p hloc hT
    rw [checkStoppedLocated_of_located hloc]
    by_cases hc : TypingDelay ≤ r - p.LastTyped
    · rw [if_pos ⟨hT, hc⟩, if_pos hc]
      refine ⟨_, _, rfl, ?_⟩
      rw [store_heap_self]
      exact located_setLocated _ hloc
    · rw [if_neg (fun h => hc h.2), if_neg hc]
      exact ⟨_, _, rfl, hloc⟩

/-- Instance of C13: Alice is already typing on `busyTable`, so her keystroke
sends no notification; one goroutine is started all the same. -/
theorem chatTyping_schedules_one_witness :
    validIndex (busyServer.heap 0).Players 0 ∧
    validIndex (busyServer.heap 0).Spectators (-1) ∧
    ∃ srv1 es, chatTyping 1500000000 busyServer ⟨1⟩ 0 0 (-1) = some (srv1, es) ∧
      notifications es = [] ∧
      scheduled es = [(0, 1)] ∧ spawn 1500000000 es = [⟨0, 1, 1500000000⟩] := by
  have hp : validIndex (busyServer.heap 0).Players 0 := Or.inr ⟨_, rfl⟩
  have hs : validIndex (busyServer.heap 0).Spectators (-1) := Or.inl rfl
  refine ⟨hp, hs, ?_⟩
  obtain ⟨⟨srv1, es, h1, h2, h3⟩, -⟩ := chatTyping_schedules_one 1500000000 busyServer ⟨1⟩
    0 0 (-1) hp hs
  refine ⟨srv1, es, h1, ?_, h2, h3⟩
  have h4 : chatTyping 1500000000 busyServer ⟨1⟩ 0 0 (-1) = _ :=
    chatTyping_of_located (p := ⟨1, "Alice", true, 1000000000⟩) rfl
  rw [h4] at h1
  obtain ⟨-, rfl⟩ := Prod.mk.inj (Option.some.inj h1)
  rfl

theorem indexOfUser_valid (xs : List Participant) (u : Int) :
    validIndex xs (indexOfUser xs u) := by
  induction xs with
  | nil => exact Or.inl rfl
  | cons x rest ih =>
    unfold indexOfUser
    by_cases hx : x.UserID = u
    · rw [if_pos hx]
      exact Or.inr ⟨x, by simp [index]⟩
    · rw [if_neg hx]
      by_cases hr : indexOfUser rest u = -1
      · rw [if_pos hr]
        exact Or.inl rfl
      · rw [if_neg hr]
        rcases ih with h | ⟨a, ha⟩
        · exact absurd h hr
        · right
          obtain ⟨h0, h1⟩ := index_eq_some ha
          refine ⟨a, ?_⟩
          unfold index
          rw [if_pos (by omega)]
          have : (indexOfUser rest u + 1).toNat = (indexOfUser rest u).toNat + 1 := by omega
          rw [this, List.getElem?_cons_succ]
          exact h1

theorem scanRoster_inRange : scanRoster.InRange where
  player := fun tbl u => indexOfUser_valid tbl.Players u
  spectator := fun tbl u => indexOfUser_valid tbl.Spectators u

/-- C15: when every index returned by the roster lookups is -1 or a position of
its collection, no operation panics: `commandChatTyping`, `chatTyping` and
`chatTypingCheckStopped` return, and no step of an execution ends in a panic.
When both indices are -1, `chatTyping` leaves the server state as it is and only
starts the goroutine, and `chatTypingCheckStopped` leaves it as it is and emits
nothing. -/
theorem no_index_panic (R : Roster) (hR : R.InRange) (now : Int) (srv : Server)
    (s : Session) (d : CommandData) (t : TableRef) (u : Int) :
    (∃ r, commandChatTyping R now srv s d = some r) ∧
    (∃ r, chatTyping now srv s t (R.GetPlayerIndexFromID (srv.heap t) s.UserID)
      (R.GetSpectatorIndexFromID (srv.heap t) s.UserID) = some r) ∧
    (∃ r, chatTypingCheckStopped R now srv t u = some r) ∧
    (∀ (sys : System) (a : Action), sys.step R a ≠ Except.error Fault.panic) ∧
    (R.GetPlayerIndexFromID (srv.heap t) s.UserID = -1 →
      R.GetSpectatorIndexFromID (srv.heap t) s.UserID = -1 →
      chatTyping now srv s t (R.GetPlayerIndexFromID (srv.heap t) s.UserID)
        (R.GetSpectatorIndexFromID (srv.heap t) s.UserID) = some (srv, [Effect.Go t s.UserID])) ∧
    (R.GetPlayerIndexFromID (srv.heap t) u = -1 →
      R.GetSpectatorIndexFromID (srv.heap t) u = -1 →
      chatTypingCheckStopped R now srv t u = some (srv, [])) := by
  refine ⟨commandChatTyping_returns hR now srv s d, ?_, ?_, step_no_panic hR, ?_, ?_⟩
  · obtain ⟨srv1, es0, h, -⟩ := chatTyping_returns now s (t := t)
      (hR.player (srv.heap t) s.UserID) (hR.spectator (srv.heap t) s.UserID)
    exact ⟨_, h⟩
  · exact checkStopped_returns R now srv t u (hR.player _ _) (hR.spectator _ _)
  · intro h1 h2
    rw [h1, h2]
    exact chatTyping_of_not_located now srv s t
  · intro h1 h2
    by_cases hreg : getTableAndLock srv (srv.heap t).ID false true = some t
    · cases helig : eligible R (srv.heap t) u
      · exact checkStopped_of_ineligible now helig
      · rw [checkStopped_of_eligible now hreg helig, h1, h2]
        exact checkStoppedLocated_of_not_located now srv t
    · exact checkStopped_of_unregistered now u hreg

/-- Instance of C15 with the scanning roster lookup on `demoServer`: user 9 is
on no list, so both indices are -1. -/
theorem no_index_panic_witness :
    scanRoster.GetPlayerIndexFromID (demoServer.heap 0) 9 = -1 ∧
    scanRoster.GetSpectatorIndexFromID (demoServer.heap 0) 9 = -1 ∧
    chatTyping 7 demoServer ⟨9⟩ 0 (-1) (-1) = some (demoServer, [Effect.Go 0 9]) ∧
    chatTypingCheckStopped scanRoster 7 demoServer 0 9 = some (demoServer, []) :=
  ⟨rfl, rfl,
    (no_index_panic scanRoster scanRoster_inRange 7 demoServer ⟨9⟩ demoData 0 9).2.2.2.2.1
      rfl rfl,
    (no_index_panic scanRoster scanRoster_inRange 7 demoServer ⟨9⟩ demoData 0 9).2.2.2.2.2
      rfl rfl⟩

/-! ## Frame of one operation -/

theorem index_set_ne {α : Type} {xs : List α} {i j : Int} (q : α) (hi : 0 ≤ i)
    (hij : i ≠ j) : index (xs.set i.toNat q) j = index xs j := by
  unfold index
  by_cases hj : 0 ≤ j
  · rw [if_pos hj, if_pos hj]
    have hne : i.toNat ≠ j.toNat := by omega
    rw [List.getElem?_set_ne hne]
  · rw [if_neg hj, if_neg hj]

theorem slotOf_spectator {si : Int} (hs : si ≠ -1) (pi : Int) :
    slotOf pi si = some (Slot.spectator si) := by
  unfold slotOf
  rw [if_pos hs]

theorem slotOf_player {pi : Int} (hp : pi ≠ -1) :
    slotOf pi (-1) = some (Slot.player pi) := by
  unfold slotOf
  rw [if_neg (by simp), if_pos hp]

/-- The located record is the record at the place given by the two indices. -/
theorem located_eq_record (tbl : Table) {pi si : Int} {sl : Slot}
    (h : slotOf pi si = some sl) : located tbl pi si = tbl.record sl := by
  unfold slotOf at h
  unfold located
  by_cases hs : si ≠ -1
  · rw [if_pos hs] at h ⊢
    obtain rfl := Option.some.inj h
    rfl
  · rw [if_neg hs] at h ⊢
    by_cases hp : pi ≠ -1
    · rw [if_pos hp] at h ⊢
      obtain rfl := Option.some.inj h
      rfl
    · rw [if_neg hp] at h
      cases h

/-- Replacing the located record leaves the record at every other place as it
is. -/
theorem record_setLocated_other {tbl : Table} {pi si : Int} {p : Participant}
    (q : Participant) (hloc : located tbl pi si = some p) {sl : Slot}
    (hsl : slotOf pi si ≠ some sl) : (tbl.setLocated pi si q).record sl = tbl.record sl := by
  rcases located_cases hloc with ⟨hs, h1⟩ | ⟨hs, hp, h1⟩
  · rw [setLocated_spectator hs]
    rw [slotOf_spectator hs] at hsl
    cases sl with
    | player j => rfl
    | spectator j =>
      have hne : si ≠ j := fun h => hsl (by rw [h])
      exact index_set_ne q (index_eq_some h1).1 hne
  · subst hs
    rw [setLocated_player hp]
    rw [slotOf_player hp] at hsl
    cases sl with
    | player j =>
      have hne : pi ≠ j := fun h => hsl (by rw [h])
      exact index_set_ne q (index_eq_some h1).1 hne
    | spectator j => rfl

/-- After the located record `p` was replaced by `q`, a record that was there
before is still there unchanged, or it was `p` and is now `q`. -/
theorem record_setLocated_cases {tbl : Table} {pi si : Int} {p : Participant}
    (q : Participant) (hloc : located tbl pi si = some p) {sl : Slot} {x : Participant}
    (hx : tbl.record sl = some x) :
    (tbl.setLocated pi si q).record sl = some x ∨
    (x = p ∧ (tbl.setLocated pi si q).record sl = some q) := by
  by_cases hsl : slotOf pi si = some sl
  · right
    have h1 := located_eq_record tbl hsl
    have h2 := located_eq_record (tbl.setLocated pi si q) hsl
    rw [hloc] at h1
    rw [located_setLocated q hloc] at h2
    rw [← h1] at hx
    exact ⟨(Option.some.inj hx).symm, h2.symm⟩
  · left
    rw [record_setLocated_other q hloc hsl]
    exact hx

/-- C16 (frame): whenever `chatTyping` or `chatTypingCheckStopped` returns, the
registry and every other table are unchanged; on the table itself the
identifier, the replay flag and the user identifiers and names of all players
and spectators, in their order, are unchanged; the record at every place other
than the located one is unchanged; every record that was there is still there.
`chatTyping` never turns a set flag into a clear one. `chatTypingCheckStopped`
never changes a `LastTyped` and never turns a clear flag into a set one. -/
theorem operations_frame (R : Roster) (now : Int) (srv srv1 : Server) (s : Session)
    (t : TableRef) (pi si u : Int) (es : List Effect) :
    (chatTyping now srv s t pi si = some (srv1, es) →
      srv1.tables = srv.tables ∧ (∀ t1, t1 ≠ t → srv1.heap t1 = srv.heap t1) ∧
      (srv1.heap t).sameRoster (srv.heap t) ∧
      (∀ sl, slotOf pi si ≠ some sl → (srv1.heap t).record sl = (srv.heap t).record sl) ∧
      (∀ sl p, (srv.heap t).record sl = some p →
        ∃ q, (srv1.heap t).record sl = some q ∧ q.ident = p.ident ∧
          (p.Typing = true → q.Typing = true))) ∧
    (chatTypingCheckStopped R now srv t u = some (srv1, es) →
      srv1.tables = srv.tables ∧ (∀ t1, t1 ≠ t → srv1.heap t1 = srv.heap t1) ∧
      (srv1.heap t).sameRoster (srv.heap t) ∧
      (∀ sl, slotOf (R.GetPlayerIndexFromID (srv.heap t) u)
          (R.GetSpectatorIndexFromID (srv.heap t) u) ≠ some sl →
        (srv1.heap t).record sl = (srv.heap t).record sl) ∧
      (∀ sl p, (srv.heap t).record sl = some p →
        ∃ q, (srv1.heap t).record sl = some q ∧ q.ident = p.ident ∧
          q.LastTyped = p.LastTyped ∧ (q.Typing = true → p.Typing = true))) := by
  constructor
  · intro h
    cases hloc : located (srv.heap t) pi si with
    | none =>
      rw [chatTyping_of_located_none hloc h]
      exact ⟨rfl, fun _ _ => rfl, sameRoster_refl _, fun _ _ => rfl,
        fun sl p hp => ⟨p, hp, rfl, fun h => h⟩⟩
    | some p0 =>
      rw [chatTyping_of_located hloc] at h
      obtain ⟨rfl, -⟩ := Prod.mk.inj (Option.some.inj h)
      refine ⟨rfl, fun t1 ht1 => store_heap_other srv _ ht1, ?_, ?_, ?_⟩
      · rw [store_heap_self]
        exact sameRoster_setLocated _ hloc rfl
      · intro sl hsl
        rw [store_heap_self]
        exact record_setLocated_other _ hloc hsl
      · intro sl p hp
        rw [store_heap_self]
        rcases record_setLocated_cases { p0 with Typing := true, LastTyped := now } hloc hp
          with h1 | ⟨rfl, h1⟩
        · exact ⟨p, h1, rfl, fun h => h⟩
        · exact ⟨_, h1, rfl, fun _ => rfl⟩
  · intro h
    rcases checkStopped_outcome h with ⟨rfl, -⟩ | ⟨p0, -, hloc, -, -, rfl, -⟩
    · exact ⟨rfl, fun _ _ => rfl, sameRoster_refl _, fun _ _ => rfl,
        fun sl p hp => ⟨p, hp, rfl, rfl, fun h => h⟩⟩
    · unfold locatedFor at hloc
      refine ⟨rfl, fun t1 ht1 => store_heap_other srv _ ht1, ?_, ?_, ?_⟩
      · rw [store_heap_self]
        exact sameRoster_setLocated _ hloc rfl
      · intro sl hsl
        rw [store_heap_self]
        exact record_setLocated_other _ hloc hsl
      · intro sl p hp
        rw [store_heap_self]
        rcases record_setLocated_cases { p0 with Typing := false } hloc hp
          with h1 | ⟨rfl, h1⟩
        · exact ⟨p, h1, rfl, rfl, fun h => h⟩
        · refine ⟨_, h1, rfl, rfl, ?_⟩
          intro hq
          cases hq

/-- Instance of C16: the keystroke of Alice on `demoTable` leaves the record of
Bob and the record of Carol as they are. -/
theorem operations_frame_witness :
    ∃ srv1 es, chatTyping 7 demoServer ⟨1⟩ 0 0 (-1) = some (srv1, es) ∧
      (srv1.heap 0).record (Slot.player 0) = some ⟨1, "Alice", true, 7⟩ ∧
      (srv1.heap 0).record (Slot.player 1) = some ⟨2, "Bob", false, 0⟩ ∧
      (srv1.heap 0).record (Slot.spectator 0) = some ⟨3, "Carol", false, 0⟩ ∧
      (srv1.heap 0).sameRoster (demoServer.heap 0) := by
  have hloc : located (demoServer.heap 0) 0 (-1) = some ⟨1, "Alice", false, 0⟩ := rfl
  have hrun := @chatTyping_of_located 7 demoServer ⟨1⟩ 0 0 (-1) _ hloc
  obtain ⟨-, -, h3, h4, -⟩ := (operations_frame scanRoster 7 demoServer _ ⟨1⟩ 0 0 (-1) 1 _).1 hrun
  refine ⟨_, _, hrun, rfl, ?_, ?_, h3⟩
  · rw [h4 (Slot.player 1) (by decide)]
    rfl
  · rw [h4 (Slot.spectator 0) (by decide)]
    rfl

/-! ## Idempotence of the reconciliation -/

/-- When no record is located and lines 101 to 126 returned once, they return
at any time, with no effect. -/
theorem checkStoppedLocated_none_any_time {r1 : Int} {srv srv1 : Server} {t : TableRef}
    {pi si : Int} {es : List Effect} (r2 : Int)
    (hloc : located (srv.heap t) pi si = none)
    (h : chatTypingCheckStoppedLocated r1 srv t pi si = some (srv1, es)) :
    chatTypingCheckStoppedLocated r2 srv t pi si = some (srv, []) := by
  unfold located at hloc
  unfold chatTypingCheckStoppedLocated at h ⊢
  by_cases hs : si ≠ -1
  · rw [if_pos hs] at hloc
    simp [hs, hloc] at h
  · rw [if_neg hs] at hloc
    by_cases hp : pi ≠ -1
    · rw [if_pos hp] at hloc
      simp [hs, hp, hloc] at h
    · simp [hs, hp, notifyIfNamed_empty]

/-- Replacing the located record of a user by one with the same user and name
keeps the registration, the eligibility and the place of the record. -/
theorem locatedFor_store {R : Roster} (hR : R.Frame) {srv : Server} {t : TableRef}
    {u : Int} {p : Participant} (q : Participant)
    (hloc : locatedFor R (srv.heap t) u = some p) (hq : q.ident = p.ident) :
    locatedFor R ((srv.store t ((srv.heap t).setLocated (R.GetPlayerIndexFromID (srv.heap t) u)
        (R.GetSpectatorIndexFromID (srv.heap t) u) q)).heap t) u = some q ∧
    eligible R ((srv.store t ((srv.heap t).setLocated (R.GetPlayerIndexFromID (srv.heap t) u)
        (R.GetSpectatorIndexFromID (srv.heap t) u) q)).heap t) u = eligible R (srv.heap t) u ∧
    ((srv.store t ((srv.heap t).setLocated (R.GetPlayerIndexFromID (srv.heap t) u)
        (R.GetSpectatorIndexFromID (srv.heap t) u) q)).heap t).ID = (srv.heap t).ID := by
  unfold locatedFor at hloc
  have hsame := sameRoster_setLocated q hloc hq
  rw [store_heap_self]
  refine ⟨?_, eligible_congr hR hsame u, hsame.1⟩
  unfold locatedFor
  rw [hR.playerIndex _ _ _ hsame, hR.spectatorIndex _ _ _ hsame]
  exact located_setLocated q hloc

theorem length_notifications_notifyIfNamed (t : TableRef) (name : String) (b : Bool) :
    (notifications (notifyIfNamed t name b)).length ≤ 1 := by
  rw [notifications_notifyIfNamed]
  split_ifs <;> simp

/-- C17 (idempotence): for roster lookups that do not read `Typing` or
`LastTyped`, and times `r1 ≤ r2` with nothing else happening in between. If the
reconciliation returns at `r1`, then it returns again at `r2`, the server state
after both runs is the state after one run at `r2` from the start, the effects
of the two runs together are the effects of that one run, there is at most one
notification, and if the first run emitted something the second emits nothing. -/
theorem reconciliation_idempotent (R : Roster) (hR : R.Frame) (r1 r2 : Int)
    (srv srv1 : Server) (t : TableRef) (u : Int) (es1 : List Effect)
    (hle : r1 ≤ r2)
    (h1 : chatTypingCheckStopped R r1 srv t u = some (srv1, es1)) :
    ∃ srv2 es2, chatTypingCheckStopped R r2 srv1 t u = some (srv2, es2) ∧
      chatTypingCheckStopped R r2 srv t u = some (srv2, es1 ++ es2) ∧
      (notifications (es1 ++ es2)).length ≤ 1 ∧
      (es1 ≠ [] → es2 = []) := by
  by_cases hreg : getTableAndLock srv (srv.heap t).ID false true = some t
  · cases helig : eligible R (srv.heap t) u
    · rw [checkStopped_of_ineligible r1 helig] at h1
      obtain ⟨rfl, rfl⟩ := Prod.mk.inj (Option.some.inj h1)
      exact ⟨srv, [], checkStopped_of_ineligible r2 helig, checkStopped_of_ineligible r2 helig,
        by simp [notifications], fun _ => rfl⟩
    · rw [checkStopped_of_eligible r1 hreg helig] at h1
      cases hloc : locatedFor R (srv.heap t) u with
      | none =>
        have h2 := checkStoppedLocated_none_any_time r2 hloc h1
        obtain ⟨rfl, rfl⟩ := checkStoppedLocated_of_located_none hloc h1
        have h3 : chatTypingCheckStopped R r2 srv1 t u = some (srv1, []) := by
          rw [checkStopped_of_eligible r2 hreg helig]
          exact h2
        exact ⟨srv1, [], h3, h3, by simp [notifications], fun _ => rfl⟩
      | some p =>
        rw [checkStoppedLocated_of_located hloc] at h1
        by_cases hc : p.Typing = true ∧ TypingDelay ≤ r1 - p.LastTyped
        · rw [if_pos hc] at h1
          obtain ⟨rfl, rfl⟩ := Prod.mk.inj (Option.some.inj h1)
          obtain ⟨hloc1, helig1, hid1⟩ := locatedFor_store hR { p with Typing := false }
            hloc rfl
          have hc2 : p.Typing = true ∧ TypingDelay ≤ r2 - p.LastTyped := ⟨hc.1, by omega⟩
          refine ⟨srv.store t ((srv.heap t).setLocated (R.GetPlayerIndexFromID (srv.heap t) u)
            (R.GetSpectatorIndexFromID (srv.heap t) u) { p with Typing := false }), [],
            ?_, ?_, ?_, fun _ => rfl⟩
          · have hreg1 : getTableAndLock
                (srv.store t ((srv.heap t).setLocated (R.GetPlayerIndexFromID (srv.heap t) u)
                  (R.GetSpectatorIndexFromID (srv.heap t) u) { p with Typing := false }))
                ((srv.store t ((srv.heap t).setLocated (R.GetPlayerIndexFromID (srv.heap t) u)
                  (R.GetSpectatorIndexFromID (srv.heap t) u) { p with Typing := false })).heap t).ID
                false true = some t := by
              rw [hid1]
              exact hreg
            rw [checkStopped_of_eligible r2 hreg1 (helig1.trans helig),
              checkStoppedLocated_of_located hloc1]
            rw [if_neg (by simp)]
          · rw [checkStopped_of_eligible r2 hreg helig, checkStoppedLocated_of_located hloc,
              if_pos hc2, List.append_nil]
          · rw [List.append_nil]
            exact length_notifications_notifyIfNamed _ _ _
        · rw [if_neg hc] at h1
          obtain ⟨rfl, rfl⟩ := Prod.mk.inj (Option.some.inj h1)
          have h3 : ∃ es2, chatTypingCheckStopped R r2 srv t u = some (
              (if p.Typing = true ∧ TypingDelay ≤ r2 - p.LastTyped then
                srv.store t ((srv.heap t).setLocated (R.GetPlayerIndexFromID (srv.heap t) u)
                  (R.GetSpectatorIndexFromID (srv.heap t) u) { p with Typing := false })
              else srv), es2) ∧ (notifications es2).length ≤ 1 := by
            rw [checkStopped_of_eligible r2 hreg helig, checkStoppedLocated_of_located hloc]
            by_cases hc2 : p.Typing = true ∧ TypingDelay ≤ r2 - p.LastTyped
            · rw [if_pos hc2, if_pos hc2]
              exact ⟨_, rfl, length_notifications_notifyIfNamed _ _ _⟩
            · rw [if_neg hc2, if_neg hc2]
              exact ⟨_, rfl, by simp [notifications]⟩
          obtain ⟨es2, h4, h5⟩ := h3
          exact ⟨_, es2, h4, h4, h5, fun h => absurd rfl h⟩
  · rw [checkStopped_of_unregistered r1 u hreg] at h1
    obtain ⟨rfl, rfl⟩ := Prod.mk.inj (Option.some.inj h1)
    exact ⟨srv, [], checkStopped_of_unregistered r2 u hreg,
      checkStopped_of_unregistered r2 u hreg, by simp [notifications], fun _ => rfl⟩

/-- Instance of C17: Alice typed last at 1 second; the reconciliation runs at 3
seconds, where it clears the flag and notifies, and again at 4 seconds, where it
does nothing. -/
theorem reconciliation_idempotent_witness :
    (chatTypingCheckStopped scanRoster 3000000000 busyServer 0 1).map (fun r => r.2) =
      some [Effect.NotifyChatTyping 0 "Alice" false] ∧
    ∃ srv1 srv2 es2,
      chatTypingCheckStopped scanRoster 3000000000 busyServer 0 1 =
        some (srv1, [Effect.NotifyChatTyping 0 "Alice" false]) ∧
      chatTypingCheckStopped scanRoster 4000000000 srv1 0 1 = some (srv2, es2) ∧
      chatTypingCheckStopped scanRoster 4000000000 busyServer 0 1 =
        some (srv2, [Effect.NotifyChatTyping 0 "Alice" false] ++ es2) ∧
      es2 = [] := by
  have hloc : locatedFor scanRoster (busyServer.heap 0) 1 = some ⟨1, "Alice", true, 1000000000⟩ :=
    rfl
  have h1 : chatTypingCheckStopped scanRoster 3000000000 busyServer 0 1 =
      some (busyServer.store 0 ((busyServer.heap 0).setLocated 0 (-1)
        ⟨1, "Alice", false, 1000000000⟩), [Effect.NotifyChatTyping 0 "Alice" false]) := by
    rw [@checkStopped_of_eligible scanRoster busyServer 0 3000000000 1 rfl rfl,
      checkStoppedLocated_of_located hloc, if_pos ⟨rfl, by decide⟩]
    rfl
  refine ⟨by rw [h1]; rfl, ?_⟩
  obtain ⟨srv2, es2, h2, h3, -, h4⟩ := reconciliation_idempotent scanRoster scanRoster_frame
    3000000000 4000000000 busyServer _ 0 1 _ (by decide) h1
  exact ⟨_, srv2, es2, h1, h2, h3, h4 (by simp)⟩

/-! ## Invariant I1: a set flag comes with the time of the latest keystroke -/

/-- When no record is located and `chatTyping` returns, both indices are -1. -/
theorem chatTyping_none_absent {now : Int} {srv : Server} {s : Session} {t : TableRef}
    {pi si : Int} {r : Server × List Effect}
    (hloc : located (srv.heap t) pi si = none)
    (h : chatTyping now srv s t pi si = some r) : slotOf pi si = none := by
  unfold located at hloc
  unfold chatTyping at h
  unfold slotOf
  by_cases hs : si ≠ -1
  · rw [if_pos hs] at hloc
    simp [hs, hloc] at h
  · rw [if_neg hs] at hloc ⊢
    by_cases hp : pi ≠ -1
    · rw [if_pos hp] at hloc
      simp [hs, hp, hloc] at h
    · rw [if_neg hp]

theorem slotOf_of_located {tbl : Table} {pi si : Int} {p : Participant}
    (hloc : located tbl pi si = some p) : ∃ sl, slotOf pi si = some sl := by
  rcases located_cases hloc with ⟨hs, -⟩ | ⟨hs, hp, -⟩
  · exact ⟨_, slotOf_spectator hs pi⟩
  · subst hs
    exact ⟨_, slotOf_player hp⟩

/-- After the located record was replaced by `q`, the record at a place is `q`
or the record that was there before. -/
theorem record_after_setLocated {tbl : Table} {pi si : Int} {p q x : Participant}
    {sl : Slot} (hloc : located tbl pi si = some p)
    (hx : (tbl.setLocated pi si q).record sl = some x) :
    (slotOf pi si = some sl ∧ x = q) ∨ (slotOf pi si ≠ some sl ∧ tbl.record sl = some x) := by
  by_cases hsl : slotOf pi si = some sl
  · left
    have h2 := located_eq_record (tbl.setLocated pi si q) hsl
    rw [located_setLocated q hloc, hx] at h2
    exact ⟨hsl, (Option.some.inj h2).symm⟩
  · right
    rw [record_setLocated_other q hloc hsl] at hx
    exact ⟨hsl, hx⟩

/-- One step keeps the invariant: if the flag of the record at place `sl` of
table `t` is set, `LastTyped` is the time of the latest keystroke that located
it. -/
theorem lastLocated_step {R : Roster} {t : TableRef} {sl : Slot} {sys sys1 : System}
    {a : Action} {acc : Option Int}
    (hinv : ∀ p, (sys.srv.heap t).record sl = some p → p.Typing = true →
      acc = some p.LastTyped)
    (h : sys.step R a = Except.ok sys1) :
    ∀ p, (sys1.srv.heap t).record sl = some p → p.Typing = true →
      (if keyedSlot R sys.srv a = some (t, sl) then some a.time else acc)
        = some p.LastTyped := by
  intro p hp hT
  cases a with
  | keystroke now s d =>
    obtain ⟨-, srv1, es, hcmd, rfl⟩ := step_keystroke_ok h
    simp only [] at hp
    cases hreg : getTableAndLock sys.srv d.TableID (!d.NoTableLock) (!d.NoTablesLock) with
    | none =>
      unfold commandChatTyping at hcmd
      rw [hreg] at hcmd
      obtain ⟨rfl, -⟩ := Prod.mk.inj (Option.some.inj hcmd)
      simp only [keyedSlot, hreg]
      exact hinv p hp hT
    | some t1 =>
      cases helig : eligible R (sys.srv.heap t1) s.UserID
      · obtain ⟨msg, h2⟩ := commandChatTyping_of_ineligible now hreg helig
        rw [h2] at hcmd
        obtain ⟨rfl, -⟩ := Prod.mk.inj (Option.some.inj hcmd)
        simp only [keyedSlot, hreg, helig]
        exact hinv p hp hT
      · rw [commandChatTyping_of_eligible now hreg helig] at hcmd
        simp only [keyedSlot, hreg, helig, if_true]
        cases hloc : located (sys.srv.heap t1)
            (R.GetPlayerIndexFromID (sys.srv.heap t1) s.UserID)
            (R.GetSpectatorIndexFromID (sys.srv.heap t1) s.UserID) with
        | none =>
          rw [chatTyping_none_absent hloc hcmd]
          rw [chatTyping_of_located_none hloc hcmd] at hp
          simp only [Option.map_none']
          exact hinv p hp hT
        | some p0 =>
          rw [chatTyping_of_located hloc] at hcmd
          obtain ⟨rfl, -⟩ := Prod.mk.inj (Option.some.inj hcmd)
          by_cases ht : t = t1
          · subst ht
            rw [store_heap_self] at hp
            rcases record_after_setLocated hloc hp with ⟨hsl, rfl⟩ | ⟨hsl, hold⟩
            · rw [hsl]
              simp [Action.time]
            · have hne : (slotOf (R.GetPlayerIndexFromID (sys.srv.heap t) s.UserID)
                  (R.GetSpectatorIndexFromID (sys.srv.heap t) s.UserID)).map
                    (fun sl => (t, sl)) ≠ some (t, sl) := by
                intro he
                obtain ⟨sl0, h0⟩ := slotOf_of_located hloc
                rw [h0] at he hsl
                simp only [Option.map_some', Option.some.injEq, Prod.mk.injEq, true_and] at he
                exact hsl (by rw [he])
              rw [if_neg hne]
              exact hinv p hold hT
          · rw [store_heap_other _ _ ht] at hp
            have hne : (slotOf (R.GetPlayerIndexFromID (sys.srv.heap t1) s.UserID)
                (R.GetSpectatorIndexFromID (sys.srv.heap t1) s.UserID)).map
                  (fun sl => (t1, sl)) ≠ some (t, sl) := by
              intro he
              obtain ⟨sl0, h0⟩ := slotOf_of_located hloc
              rw [h0] at he
              simp only [Option.map_some', Option.some.injEq, Prod.mk.injEq] at he
              exact ht he.1.symm
            rw [if_neg hne]
            exact hinv p hp hT
  | wake i now =>
    obtain ⟨-, k, srv1, es, -, -, hcs, rfl⟩ := step_wake_ok h
    simp only [] at hp
    simp only [keyedSlot]
    rw [if_neg (by simp)]
    rcases checkStopped_outcome hcs with ⟨rfl, -⟩ | ⟨p0, -, hloc, -, -, rfl, -⟩
    · exact hinv p hp hT
    · unfold locatedFor at hloc
      by_cases ht : t = k.table
      · subst ht
        rw [store_heap_self] at hp
        rcases record_after_setLocated hloc hp with ⟨-, rfl⟩ | ⟨-, hold⟩
        · cases hT
        · exact hinv p hold hT
      · rw [store_heap_other _ _ ht] at hp
        exact hinv p hp hT

theorem lastLocated_run {R : Roster} {t : TableRef} {sl : Slot} {acts : List Action}
    {sys sysF : System} {acc : Option Int}
    (hinv : ∀ p, (sys.srv.heap t).record sl = some p → p.Typing = true →
      acc = some p.LastTyped)
    (h : System.run R sys acts = Except.ok sysF) :
    ∀ p, (sysF.srv.heap t).record sl = some p → p.Typing = true →
      lastLocated R t sl sys acts acc = some p.LastTyped := by
  induction acts generalizing sys acc with
  | nil =>
    rw [run_nil_ok h]
    exact hinv
  | cons a rest ih =>
    obtain ⟨sys1, hs, hr⟩ := run_cons_ok h
    intro p hp hT
    simp only [lastLocated, hs]
    exact ih (lastLocated_step hinv hs) hr p hp hT

/-- C12 (invariant I1): start from a state in which every record of table `t`
has the flag clear, and run any execution. At the end, every record of table
`t` with the flag set has `LastTyped` equal to the clock reading of the most
recent keystroke for which `chatTyping` located that record. -/
theorem typing_has_latest_keystroke (R : Roster) (t : TableRef) (sys0 sysF : System)
    (acts : List Action)
    (hinit : ∀ sl p, (sys0.srv.heap t).record sl = some p → p.Typing = false)
    (hrun : System.run R sys0 acts = Except.ok sysF) :
    ∀ sl p, (sysF.srv.heap t).record sl = some p → p.Typing = true →
      lastLocated R t sl sys0 acts none = some p.LastTyped := by
  intro sl
  apply lastLocated_run _ hrun
  intro p hp hT
  rw [hinit sl p hp] at hT
  cases hT

theorem mem_of_index {α : Type} {xs : List α} {i : Int} {a : α}
    (h : index xs i = some a) : a ∈ xs :=
  List.getElem?_mem (index_eq_some h).2

theorem demo_all_idle :
    ∀ sl p, (demoSystem.srv.heap 0).record sl = some p → p.Typing = false := by
  intro sl p hp
  cases sl with
  | player i =>
    have hm : p ∈ demoTable.Players := mem_of_index hp
    simp only [demoTable, List.mem_cons, List.mem_singleton, List.not_mem_nil, or_false] at hm
    rcases hm with rfl | rfl <;> rfl
  | spectator i =>
    have hm : p ∈ demoTable.Spectators := mem_of_index hp
    simp only [demoTable, List.mem_cons, List.mem_singleton, List.not_mem_nil, or_false] at hm
    rcases hm with rfl
    rfl

theorem runRecord_eq_some {R : Roster} {sys : System} {acts : List Action} {t : TableRef}
    {sl : Slot} {p : Participant} (h : System.runRecord R sys acts t sl = some p) :
    ∃ sysF, System.run R sys acts = Except.ok sysF ∧ (sysF.srv.heap t).record sl = some p := by
  unfold System.runRecord at h
  cases hr : System.run R sys acts with
  | error e => rw [hr] at h; cases h
  | ok sysF =>
    rw [hr] at h
    exact ⟨sysF, rfl, h⟩

/-- Instance of C12: Alice types at 0, 0.5 and 1.0 seconds, her flag is cleared
at 3.0 seconds, and she types again at 4.0 seconds. At the end her flag is set
and `LastTyped` is 4.0 seconds, the time of the latest keystroke that located
her record, not a time of the episode that was cleared. -/
theorem typing_has_latest_keystroke_witness :
    System.runRecord scanRoster demoSystem episodeActions 0 (Slot.player 0) =
      some ⟨1, "Alice", true, 4000000000⟩ ∧
    lastLocated scanRoster 0 (Slot.player 0) demoSystem episodeActions none =
      some 4000000000 := by
  have hrec : System.runRecord scanRoster demoSystem episodeActions 0 (Slot.player 0) =
      some ⟨1, "Alice", true, 4000000000⟩ := by
    rfl
  obtain ⟨sysF, hrun, hp⟩ := runRecord_eq_some hrec
  exact ⟨hrec, typing_has_latest_keystroke scanRoster 0 demoSystem sysF episodeActions
    demo_all_idle hrun (Slot.player 0) _ hp rfl⟩

/-! ## Which reconciliation clears the flag -/

/-- Runs of goroutines of the participant leave `LastTyped`, the name, the
registry and the identifier of the table as they are. -/
theorem wakes_keep_lastTyped {R : Roster} (hR : R.Frame) {s : Session} {d : CommandData}
    {t : TableRef} {post : List Action} {p : Participant} {sys sysF : System}
    (hf : Focus R s d t p sys) (hpost : ∀ a ∈ post, a.isWake)
    (h : System.run R sys post = Except.ok sysF) :
    ∃ q, Focus R s d t q sysF ∧ q.LastTyped = p.LastTyped ∧ q.Name = p.Name ∧
      sysF.srv.tables = sys.srv.tables ∧ (sysF.srv.heap t).ID = (sys.srv.heap t).ID := by
  induction post generalizing sys p with
  | nil =>
    rw [run_nil_ok h]
    exact ⟨p, hf, rfl, rfl, rfl, rfl⟩
  | cons a rest ih =>
    obtain ⟨sys1, hs, hr⟩ := run_cons_ok h
    have hrest : ∀ a ∈ rest, a.isWake := fun a ha => hpost a (List.mem_cons_of_mem _ ha)
    cases a with
    | keystroke now s1 d1 =>
      exact absurd (hpost _ (List.mem_cons_self _ _)) (by simp [Action.isWake])
    | wake i now =>
      obtain ⟨-, -, -, -, hcase⟩ := focus_wake hR hf hs
      rcases hcase with ⟨hsrv, -, hf1, -⟩ | ⟨-, -, hf1, -, ht, hid⟩
      · obtain ⟨q, hq, h1, h2, h3, h4⟩ := ih hf1 hrest hr
        rw [hsrv] at h3 h4
        exact ⟨q, hq, h1, h2, h3, h4⟩
      · obtain ⟨q, hq, h1, h2, h3, h4⟩ := ih hf1 hrest hr
        exact ⟨q, hq, h1, h2, h3.trans ht, h4.trans hid⟩

/-- C14 fails as stated: Alice types at 0 and at 1.0 seconds. After the two
keystrokes the goroutine of the first one is at position 0 and the goroutine of
the second, final, one at position 1. The first goroutine runs at 3.5 seconds,
which is at least `TypingDelay` after its keystroke: it emits the stop
notification, and the goroutine of the final keystroke is still outstanding.
When that one runs at 3.6 seconds it changes nothing. -/
theorem earlier_reconciliation_clears :
    System.runView scanRoster demoSystem (lateActions.take 2) =
      some ([(0, Effect.NotifyChatTyping 0 "Alice" true), (0, Effect.Go 0 1),
             (1000000000, Effect.Go 0 1)],
            [⟨0, 1, 0⟩, ⟨0, 1, 1000000000⟩]) ∧
    System.runView scanRoster demoSystem lateActions =
      some ([(0, Effect.NotifyChatTyping 0 "Alice" true), (0, Effect.Go 0 1),
             (1000000000, Effect.Go 0 1),
             (3500000000, Effect.NotifyChatTyping 0 "Alice" false)],
            [⟨0, 1, 1000000000⟩]) ∧
    System.runRecord scanRoster demoSystem lateActions 0 (Slot.player 0) =
      some ⟨1, "Alice", false, 1000000000⟩ ∧
    System.runView scanRoster demoSystem (lateActions ++ [Action.wake 0 3600000000]) =
      some ([(0, Effect.NotifyChatTyping 0 "Alice" true), (0, Effect.Go 0 1),
             (1000000000, Effect.Go 0 1),
             (3500000000, Effect.NotifyChatTyping 0 "Alice" false)],
            []) := by
  refine ⟨?_, ?_, ?_, ?_⟩ <;> rfl

/-- C14, amended: one participant, located and eligible, on a table that stays
registered; the final keystroke of an episode is handled at time `aN`, and
afterwards only reconciliations run, each no earlier than `TypingDelay` after
the keystroke that started it. For the run at time `r` of any of these
reconciliations, started at time `k.spawned`: if `r < aN + TypingDelay` it
changes nothing; the reconciliation started by the final keystroke never runs
that early; if the flag is still set and `r ≥ aN + TypingDelay` it clears the
flag and notifies; and a run that changes something belongs to the final
keystroke whenever the reconciliations of earlier keystrokes run before
`aN + TypingDelay`. -/
theorem clearing_reconciliation (R : Roster) (hR : R.Frame) (s : Session) (d : CommandData)
    (t : TableRef) (p : Participant) (sys0 sysK a b : System) (pre post1 : List Action)
    (aN r : Int) (i : Nat) (k : Task)
    (hf : Focus R s d t p sys0)
    (hlive : getTableAndLock sys0.srv (sys0.srv.heap t).ID false true = some t)
    (hpre : ∀ x ∈ pre, x.fromSession s d) (hpost1 : ∀ x ∈ post1, x.isWake)
    (hrunK : System.run R sys0 (pre ++ [Action.keystroke aN s d]) = Except.ok sysK)
    (hrunA : System.run R sysK post1 = Except.ok a)
    (hk : a.tasks[i]? = some k)
    (hstep : a.step R (Action.wake i r) = Except.ok b) :
    (r < aN + TypingDelay → b.srv = a.srv ∧ b.log = a.log) ∧
    (k.spawned = aN → aN + TypingDelay ≤ r) ∧
    (∀ q, locatedFor R (a.srv.heap t) s.UserID = some q → q.Typing = true →
      aN + TypingDelay ≤ r →
      locatedFor R (b.srv.heap t) s.UserID = some { q with Typing := false } ∧
      b.log = a.log ++ stamp r (notifyIfNamed t q.Name false)) ∧
    ((k.spawned ≠ aN → r < aN + TypingDelay) → (b.srv ≠ a.srv ∨ b.log ≠ a.log) →
      k.spawned = aN) := by
  obtain ⟨mid, h3, h4⟩ := run_append_ok hrunK
  obtain ⟨q0, hq0, -, htab0, hid0⟩ := focus_run hR hf hpre h3
  obtain ⟨sys1, hs, hr⟩ := run_cons_ok h4
  rw [← run_nil_ok hr] at hs
  obtain ⟨hfK, -, -, -, -, htabK, hidK⟩ := focus_keystroke hR hq0 hs
  obtain ⟨q, hq, hlast, -, htabA, hidA⟩ := wakes_keep_lastTyped hR hfK hpost1 hrunA
  have hlast2 : q.LastTyped = aN := hlast
  have hliveA : getTableAndLock a.srv (a.srv.heap t).ID false true = some t := by
    unfold getTableAndLock at hlive ⊢
    rw [htabA, htabK, htab0, hidA, hidK, hid0]
    exact hlive
  obtain ⟨-, -, -, ⟨k1, hk1, hready⟩, hcase⟩ := focus_wake hR hq hstep
  rw [hk] at hk1
  obtain rfl := Option.some.inj hk1
  have early : r < aN + TypingDelay → b.srv = a.srv ∧ b.log = a.log := by
    intro hearly
    rcases hcase with ⟨h1, h2, -, -⟩ | ⟨-, hlate, -⟩
    · exact ⟨h1, h2⟩
    · omega
  refine ⟨early, ?_, ?_, ?_⟩
  · intro hsp
    omega
  · intro q1 hq1 hT hlate
    rw [hq.loc] at hq1
    obtain rfl := Option.some.inj hq1
    rcases hcase with ⟨-, -, -, hno⟩ | ⟨-, -, hfb, hlog, -, -⟩
    · exact absurd ⟨hT, by omega⟩ (hno hliveA)
    · exact ⟨hfb.loc, hlog⟩
  · intro hprompt hchange
    by_contra hne
    obtain ⟨h1, h2⟩ := early (hprompt hne)
    rcases hchange with hc | hc
    · exact hc h1
    · exact hc h2

theorem runLocated_eq_some {R : Roster} {sys : System} {acts : List Action} {t : TableRef}
    {u : Int} {p : Participant} (h : System.runLocated R sys acts t u = some p) :
    ∃ sysF, System.run R sys acts = Except.ok sysF ∧
      locatedFor R (sysF.srv.heap t) u = some p := by
  unfold System.runLocated at h
  cases hr : System.run R sys acts with
  | error e => rw [hr] at h; cases h
  | ok sysF =>
    rw [hr] at h
    exact ⟨sysF, rfl, h⟩

/-- Instance of the amended C14, the scenario of the specification: after the
final keystroke at 1.0 seconds the reconciliations of the keystrokes at 0 and
0.5 seconds run at 2.0 and 2.5 seconds, before 1.0 seconds plus `TypingDelay`;
the reconciliation of the final keystroke runs at 3.0 seconds, clears the flag
and notifies. -/
theorem clearing_reconciliation_witness :
    System.runView scanRoster demoSystem (demoActions.take 5) =
      some ([(0, Effect.NotifyChatTyping 0 "Alice" true), (0, Effect.Go 0 1),
             (500000000, Effect.Go 0 1), (1000000000, Effect.Go 0 1)],
            [⟨0, 1, 1000000000⟩]) ∧
    ∃ a b, System.run scanRoster demoSystem (demoActions.take 5) = Except.ok a ∧
      a.step scanRoster (Action.wake 0 3000000000) = Except.ok b ∧
      locatedFor scanRoster (b.srv.heap 0) 1 = some ⟨1, "Alice", false, 1000000000⟩ ∧
      b.log = a.log ++ [(3000000000, Effect.NotifyChatTyping 0 "Alice" false)] := by
  have hvA : System.runView scanRoster demoSystem (demoActions.take 5) =
      some ([(0, Effect.NotifyChatTyping 0 "Alice" true), (0, Effect.Go 0 1),
             (500000000, Effect.Go 0 1), (1000000000, Effect.Go 0 1)],
            [⟨0, 1, 1000000000⟩]) := by
    rfl
  have hlA : System.runLocated scanRoster demoSystem (demoActions.take 5) 0 1 =
      some ⟨1, "Alice", true, 1000000000⟩ := by
    rfl
  refine ⟨hvA, ?_⟩
  obtain ⟨a, hrunA, -, htasksA⟩ := runView_eq_some hvA
  obtain ⟨a1, hrunA1, hlocA⟩ := runLocated_eq_some hlA
  rw [hrunA] at hrunA1
  obtain rfl := Except.ok.inj hrunA1
  obtain ⟨sysF, hrunF, -, -⟩ := runView_eq_some demo_runView
  have hsplit : demoActions = demoActions.take 5 ++ [Action.wake 0 3000000000] := rfl
  rw [hsplit] at hrunF
  obtain ⟨mid, h1, h2⟩ := run_append_ok hrunF
  rw [hrunA] at h1
  obtain rfl := Except.ok.inj h1
  obtain ⟨b, hstep, hr⟩ := run_cons_ok h2
  have hsplit2 : demoActions.take 5 =
      ([Action.keystroke 0 aliceSession demoData,
        Action.keystroke 500000000 aliceSession demoData] ++
        [Action.keystroke 1000000000 aliceSession demoData]) ++
      [Action.wake 0 2000000000, Action.wake 0 2500000000] := rfl
  have hrunA2 := hrunA
  rw [hsplit2] at hrunA2
  obtain ⟨sysK, hrunK, hpost⟩ := run_append_ok hrunA2
  have hk : a.tasks[0]? = some ⟨0, 1, 1000000000⟩ := by
    rw [htasksA]
    rfl
  obtain ⟨-, -, h3, -⟩ := clearing_reconciliation scanRoster scanRoster_frame aliceSession
    demoData 0 ⟨1, "Alice", false, 0⟩ demoSystem sysK a b
    [Action.keystroke 0 aliceSession demoData, Action.keystroke 500000000 aliceSession demoData]
    [Action.wake 0 2000000000, Action.wake 0 2500000000] 1000000000 3000000000 0
    ⟨0, 1, 1000000000⟩ demo_focus rfl
    (by
      intro x hx
      simp only [List.mem_cons, List.mem_singleton, List.not_mem_nil, or_false] at hx
      rcases hx with rfl | rfl <;> exact ⟨rfl, rfl⟩)
    (by
      intro x hx
      simp only [List.mem_cons, List.mem_singleton, List.not_mem_nil, or_false] at hx
      rcases hx with rfl | rfl <;> trivial)
    hrunK hpost hk hstep
  obtain ⟨h4, h5⟩ := h3 _ hlocA rfl (by decide)
  exact ⟨a, b, hrunA, hstep, h4, h5⟩

end HanabiLive
